import Mathlib

/-!
Verification development for the anyconfig XML backend (`anyconfig/backend/xml.py`)
and the getter/setter module (`anyconfig/getset.py`).

The Python data is embedded shallowly:

* `Val` is the canonical container value: Python `None`, strings, dicts
  (ordered association lists) and lists.
* `Element` is an `xml.etree` element: tag, ordered attributes, optional text,
  ordered children.

Python dict insertion/update (`d[k] = v`) is `setKey` below: it replaces the
value in place when the key exists and appends otherwise, which matches the
ordered-dict semantics of CPython dicts used by the source.
-/

/-- Canonical container value (Python: `None` / `str` / `dict` / `list`). -/
inductive Val where
  | vnone : Val
  | vstr (s : String) : Val
  | vmap (m : List (String × Val)) : Val
  | vseq (l : List Val) : Val

/-- An `xml.etree.ElementTree.Element`: tag, ordered attributes, optional text,
ordered children.  (`elem.text` is `None` or a string for parsed documents.) -/
inductive Element where
  | mk (tag : String) (attrib : List (String × String)) (text : Option String)
       (children : List Element) : Element

mutual

def valDecEq : (a b : Val) → Decidable (a = b)
  | .vnone, .vnone => isTrue rfl
  | .vnone, .vstr _ => isFalse (fun h => Val.noConfusion h)
  | .vnone, .vmap _ => isFalse (fun h => Val.noConfusion h)
  | .vnone, .vseq _ => isFalse (fun h => Val.noConfusion h)
  | .vstr _, .vnone => isFalse (fun h => Val.noConfusion h)
  | .vstr a, .vstr b =>
    match decEq a b with
    | isTrue h => isTrue (by rw [h])
    | isFalse h => isFalse (fun hh => h (Val.vstr.inj hh))
  | .vstr _, .vmap _ => isFalse (fun h => Val.noConfusion h)
  | .vstr _, .vseq _ => isFalse (fun h => Val.noConfusion h)
  | .vmap _, .vnone => isFalse (fun h => Val.noConfusion h)
  | .vmap _, .vstr _ => isFalse (fun h => Val.noConfusion h)
  | .vmap a, .vmap b =>
    match entriesDecEq a b with
    | isTrue h => isTrue (by rw [h])
    | isFalse h => isFalse (fun hh => h (Val.vmap.inj hh))
  | .vmap _, .vseq _ => isFalse (fun h => Val.noConfusion h)
  | .vseq _, .vnone => isFalse (fun h => Val.noConfusion h)
  | .vseq _, .vstr _ => isFalse (fun h => Val.noConfusion h)
  | .vseq _, .vmap _ => isFalse (fun h => Val.noConfusion h)
  | .vseq a, .vseq b =>
    match valsDecEq a b with
    | isTrue h => isTrue (by rw [h])
    | isFalse h => isFalse (fun hh => h (Val.vseq.inj hh))

def valsDecEq : (a b : List Val) → Decidable (a = b)
  | [], [] => isTrue rfl
  | [], _ :: _ => isFalse (fun h => List.noConfusion h)
  | _ :: _, [] => isFalse (fun h => List.noConfusion h)
  | x :: xs, y :: ys =>
    match valDecEq x y, valsDecEq xs ys with
    | isTrue h₁, isTrue h₂ => isTrue (by rw [h₁, h₂])
    | isFalse h₁, _ => isFalse (fun h => h₁ (List.cons.inj h).1)
    | _, isFalse h₂ => isFalse (fun h => h₂ (List.cons.inj h).2)

def entriesDecEq : (a b : List (String × Val)) → Decidable (a = b)
  | [], [] => isTrue rfl
  | [], _ :: _ => isFalse (fun h => List.noConfusion h)
  | _ :: _, [] => isFalse (fun h => List.noConfusion h)
  | (k₁, v₁) :: xs, (k₂, v₂) :: ys =>
    match decEq k₁ k₂, valDecEq v₁ v₂, entriesDecEq xs ys with
    | isTrue h₁, isTrue h₂, isTrue h₃ => isTrue (by rw [h₁, h₂, h₃])
    | isFalse h₁, _, _ =>
      isFalse (fun h => h₁ (congrArg Prod.fst (List.cons.inj h).1))
    | _, isFalse h₂, _ =>
      isFalse (fun h => h₂ (congrArg Prod.snd (List.cons.inj h).1))
    | _, _, isFalse h₃ => isFalse (fun h => h₃ (List.cons.inj h).2)

end

instance : DecidableEq Val := valDecEq

mutual

def elemDecEq : (a b : Element) → Decidable (a = b)
  | .mk t₁ a₁ tx₁ c₁, .mk t₂ a₂ tx₂ c₂ =>
    match decEq t₁ t₂, decEq a₁ a₂, decEq tx₁ tx₂, elemsDecEq c₁ c₂ with
    | isTrue h₁, isTrue h₂, isTrue h₃, isTrue h₄ => isTrue (by rw [h₁, h₂, h₃, h₄])
    | isFalse h₁, _, _, _ => isFalse (fun h => h₁ (Element.mk.inj h).1)
    | _, isFalse h₂, _, _ => isFalse (fun h => h₂ (Element.mk.inj h).2.1)
    | _, _, isFalse h₃, _ => isFalse (fun h => h₃ (Element.mk.inj h).2.2.1)
    | _, _, _, isFalse h₄ => isFalse (fun h => h₄ (Element.mk.inj h).2.2.2)

def elemsDecEq : (a b : List Element) → Decidable (a = b)
  | [], [] => isTrue rfl
  | [], _ :: _ => isFalse (fun h => List.noConfusion h)
  | _ :: _, [] => isFalse (fun h => List.noConfusion h)
  | x :: xs, y :: ys =>
    match elemDecEq x y, elemsDecEq xs ys with
    | isTrue h₁, isTrue h₂ => isTrue (by rw [h₁, h₂])
    | isFalse h₁, _ => isFalse (fun h => h₁ (List.cons.inj h).1)
    | _, isFalse h₂ => isFalse (fun h => h₂ (List.cons.inj h).2)

end

instance : DecidableEq Element := elemDecEq

def Element.tag : Element → String
  | .mk t _ _ _ => t

def Element.attrib : Element → List (String × String)
  | .mk _ a _ _ => a

def Element.text : Element → Option String
  | .mk _ _ tx _ => tx

def Element.children : Element → List Element
  | .mk _ _ _ cs => cs

@[simp] theorem Element.tag_mk (t : String) (a : List (String × String))
    (tx : Option String) (c : List Element) : (Element.mk t a tx c).tag = t := rfl

@[simp] theorem Element.attrib_mk (t : String) (a : List (String × String))
    (tx : Option String) (c : List Element) : (Element.mk t a tx c).attrib = a := rfl

@[simp] theorem Element.text_mk (t : String) (a : List (String × String))
    (tx : Option String) (c : List Element) : (Element.mk t a tx c).text = tx := rfl

@[simp] theorem Element.children_mk (t : String) (a : List (String × String))
    (tx : Option String) (c : List Element) : (Element.mk t a tx c).children = c := rfl

/-- Ordered-dict update `d[k] = v`: replace in place or append. -/
def setKey {β : Type} (m : List (String × β)) (k : String) (v : β) :
    List (String × β) :=
  match m with
  | [] => [(k, v)]
  | (k₁, v₁) :: rest => if k₁ = k then (k, v) :: rest else (k₁, v₁) :: setKey rest k v

/-- Ordered-dict lookup (first matching key; keys are unique in real dicts). -/
def lookupKey {β : Type} (m : List (String × β)) (k : String) : Option β :=
  match m with
  | [] => none
  | (k₁, v₁) :: rest => if k₁ = k then some v₁ else lookupKey rest k

/-- Python truthiness of an element's `text` (`None` and `""` are falsy). -/
def textTruthy : Option String → Bool
  | none => false
  | some s => s ≠ ""

/-- Python `\s` on the ASCII range, as used by `str.strip()`. -/
def isPySpace (c : Char) : Bool :=
  c = ' ' ∨ c = '\t' ∨ c = '\n' ∨ c = '\x0d' ∨ c = '\x0b' ∨ c = '\x0c'

/-- `str.strip()` on the character list: drop whitespace from both ends. -/
def stripChars (cs : List Char) : List Char :=
  (((cs.dropWhile isPySpace).reverse).dropWhile isPySpace).reverse

/-- Python `str.strip()`. -/
def pyStrip (s : String) : String :=
  String.mk (stripChars s.toList)

/-! ### Namespace resolution: `_tweak_ns` and the regex `^{(\S+)}(\S+)$` -/

/-- Split a character list at the last occurrence of `sep` that is followed by a
nonempty suffix.  This matches the backtracking of the greedy anchored regex
`^{(\S+)}(\S+)$`: the separating `}` is the latest one leaving group 2
nonempty. -/
def breakLast (sep : Char) : List Char → Option (List Char × List Char)
  | [] => none
  | c :: rest =>
    match breakLast sep rest with
    | some (a, b) => some (c :: a, b)
    | none => if c = sep ∧ rest ≠ [] then some ([], rest) else none

/-- Matching of `_ET_NS_RE = re.compile(r"^{(\S+)}(\S+)$")`: returns the
`(uri, local)` groups when the tag matches. -/
def nsMatch (tag : String) : Option (String × String) :=
  match tag.toList with
  | '{' :: rest =>
    if rest.all (fun c => ¬ isPySpace c) then
      match breakLast '}' rest with
      | some (uri, loc) => if uri ≠ [] then some (String.mk uri, String.mk loc) else none
      | none => none
    else none
  | _ => none

/-- `_tweak_ns(tag, nspaces)`: rewrite `{uri}local` to `prefix:local` when the
namespace map assigns the URI a truthy (nonempty) prefix.  On a regex match the
source rebinds its `tag` variable to the local group (`(uri, tag) =
matched.groups()`, xml.py:126), so the fall-through `return tag` yields the
bare local part when the prefix is absent or falsy. -/
def tweakNs (nspaces : List (String × String)) (tag : String) : String :=
  if nspaces ≠ [] then
    match nsMatch tag with
    | some (uri, loc) =>
      match lookupKey nspaces uri with
      | some p => if p ≠ "" then p ++ ":" ++ loc else loc
      | none => loc
    | none => tag
  else tag

theorem breakLast_of_not_mem {sep : Char} {cs : List Char} (h : sep ∉ cs) :
    breakLast sep cs = none := by
  induction cs with
  | nil => rfl
  | cons c rest ih =>
    simp only [List.mem_cons, not_or] at h
    have hc : c ≠ sep := fun hh => h.1 hh.symm
    simp only [breakLast, ih h.2]
    simp [hc]

theorem breakLast_append {sep : Char} {uri loc : List Char} (hloc : loc ≠ [])
    (hnot : sep ∉ loc) :
    breakLast sep (uri ++ sep :: loc) = some (uri, loc) := by
  induction uri with
  | nil =>
    simp only [List.nil_append, breakLast, breakLast_of_not_mem hnot]
    simp [hloc]
  | cons c rest ih =>
    simp [breakLast, ih]

theorem nsMatch_eq {uri loc : String} (huri : uri ≠ "") (hloc : loc ≠ "")
    (hws : (uri.toList ++ loc.toList).all (fun c => ¬ isPySpace c))
    (hbr : '}' ∉ loc.toList) :
    nsMatch ("\x7b" ++ uri ++ "\x7d" ++ loc) = some (uri, loc) := by
  obtain ⟨u⟩ := uri
  obtain ⟨l⟩ := loc
  have hu : u ≠ [] := by
    intro h; subst h; exact huri rfl
  have hl : l ≠ [] := by
    intro h; subst h; exact hloc rfl
  have hlist : ("\x7b" ++ String.mk u ++ "\x7d" ++ String.mk l)
      = String.mk ('{' :: (u ++ '}' :: l)) := by
    show String.mk (['{'] ++ u ++ ['}'] ++ l) = _
    simp
  rw [hlist]
  have htl : (String.mk ('{' :: (u ++ '}' :: l))).toList = '{' :: (u ++ '}' :: l) := rfl
  simp only [nsMatch, htl]
  have hws' : (u ++ l).all (fun c => ¬ isPySpace c) := hws
  have hbr' : '}' ∉ l := hbr
  have hall : (u ++ '}' :: l).all (fun c => decide ¬ isPySpace c = true) = true := by
    simp only [List.all_append, List.all_cons, Bool.and_eq_true] at hws' ⊢
    refine ⟨hws'.1, ?_, hws'.2⟩
    simp [isPySpace]
  rw [if_pos hall]
  rw [breakLast_append hl hbr']
  simp [hu]

/-- C9 counterexample: the claim says a qualified tag whose URI is absent from
the namespace map, or mapped to the empty prefix, is returned unchanged by
`_tweak_ns`.  False: with a nonempty map, a matching tag is rebound to its
local group (`(uri, tag) = matched.groups()`, xml.py:126) before the
fall-through `return tag`, so the empty-prefix URI `http://a/` yields the bare
local part `x`, not the original qualified tag. -/
theorem C9_counterexample :
    tweakNs [("http://a/", "")] ("\x7b" ++ "http://a/" ++ "\x7d" ++ "x")
      ≠ "\x7b" ++ "http://a/" ++ "\x7d" ++ "x" := by
  decide

/-- C9 (amended): when the namespace map is nonempty and the tag matches
`^\x7b(\S+)\x7d(\S+)$`, a URI that is absent from the map or mapped to the
empty-string prefix produces the bare local part: the namespace qualifier is
stripped, not preserved.  (With an empty map, or a non-matching tag, the tag
is returned unchanged.) -/
theorem C9_amended (nspaces : List (String × String))
    (uri loc : String) (huri : uri ≠ "") (hloc : loc ≠ "")
    (hws : (uri.toList ++ loc.toList).all (fun c => ¬ isPySpace c))
    (hbr : '}' ∉ loc.toList) (hns : nspaces ≠ [])
    (habs : lookupKey nspaces uri = none ∨ lookupKey nspaces uri = some "") :
    tweakNs nspaces ("\x7b" ++ uri ++ "\x7d" ++ loc) = loc := by
  unfold tweakNs
  rw [if_pos (by simpa using hns), nsMatch_eq huri hloc hws hbr]
  rcases habs with h | h <;> simp [h]

/-- Witness for the amended C9 at a concrete tag and namespace map. -/
theorem C9_amended_witness :
    tweakNs [("http://a/", "")] ("\x7b" ++ "http://a/" ++ "\x7d" ++ "x") = "x" :=
  C9_amended [("http://a/", "")] "http://a/" "x"
    (by decide) (by decide) (by decide) (by decide) (by decide)
    (Or.inr (by decide))

/-! ### Path getters: `anyconfig/getset.py` -/

/-- Python exceptions raised by `operator.getitem` on our container values. -/
inductive GetExc where
  | keyError (k : String) : GetExc
  | typeError : GetExc
deriving DecidableEq

/-- Python `key in dic` for a string key.  Dicts test key membership, strings
test substring containment, lists test element equality, and `None` raises a
`TypeError` (`argument of type 'NoneType' is not iterable`). -/
def keyInVal (k : String) : Val → Except Unit Bool
  | .vmap m => .ok (lookupKey m k).isSome
  | .vstr s => .ok (decide (k.toList <:+: s.toList))
  | .vseq l => .ok (l.any (fun x => decide (x = Val.vstr k)))
  | .vnone => .error ()

/-- Python `dic[key]` for a string key: dict lookup (`KeyError` when absent),
`TypeError` on strings, lists and `None`. -/
def getItemVal (d : Val) (k : String) : Except GetExc Val :=
  match d with
  | .vmap m =>
    match lookupKey m k with
    | some v => .ok v
    | none => .error (.keyError k)
  | .vstr _ => .error .typeError
  | .vseq _ => .error .typeError
  | .vnone => .error .typeError

/-- Outcome of `_get_recur`; the source renders these as the string messages
`''`, `"Not found at: " ++ path` and `"Not a dict at: " ++ path ++ ", err=…"`
(with `path = '.'.join(traversed + [key])`). -/
inductive RecurOutcome where
  | found : RecurOutcome
  | notFound (path : List String) : RecurOutcome
  | notADict (path : List String) : RecurOutcome
deriving DecidableEq

/-- `_get_recur(dic, path_keys, traversed)`. -/
def getRecur : Val → List String → List String → Option Val × RecurOutcome
  | d, [], _ => (some d, .found)
  | d, k :: rest, trav =>
    match keyInVal k d with
    | .error _ => (none, .notADict (trav ++ [k]))
    | .ok true =>
      match getItemVal d k with
      | .ok v => getRecur v rest (trav ++ [k])
      | .error _ => (none, .notADict (trav ++ [k]))
    | .ok false => (none, .notFound (trav ++ [k]))

/-- `functools.reduce(operator.getitem, path_keys, dic)`. -/
def reduceGetitem : Val → List String → Except GetExc Val
  | d, [] => .ok d
  | d, k :: rest =>
    match getItemVal d k with
    | .ok v => reduceGetitem v rest
    | .error e => .error e

/-- `_get_reduce(dic, path_keys)`: the caught exception (rendered as `str(e)`
in the source) is kept structurally in the second component. -/
def getReduce (d : Val) (keys : List String) : Option Val × Option GetExc :=
  match reduceGetitem d keys with
  | .ok v => (some v, none)
  | .error e => (none, some e)

/-- The two failure kinds distinguished by the spec. -/
inductive FailKind where
  | absentKey : FailKind
  | nonTraversable : FailKind
deriving DecidableEq

def recurClass : RecurOutcome → Option FailKind
  | .found => none
  | .notFound _ => some .absentKey
  | .notADict _ => some .nonTraversable

def reduceClass : Option GetExc → Option FailKind
  | none => none
  | some (.keyError _) => some .absentKey
  | some .typeError => some .nonTraversable

/-- Claim C6 at one input: the two getters return the same value and classify
any failure identically. -/
def claimC6At (d : Val) (ks : List String) : Prop :=
  (getRecur d ks []).1 = (getReduce d ks).1 ∧
  recurClass (getRecur d ks []).2 = reduceClass (getReduce d ks).2

/-- C6 counterexample: on the non-mapping `"abc"` with key `"x"` (not a
substring), `_get_recur` reports an absent key while `_get_reduce` reports a
`TypeError` (non-traversable). -/
theorem C6_counterexample : ¬ claimC6At (Val.vstr "abc") ["x"] := by
  intro h
  exact absurd h.2 (by decide)

/-- C6 (amended): the recursive and fold getters agree on the returned value on
every input; their failure classifications agree except that, where they
differ, `_get_recur` reports an absent key and `_get_reduce` reports a
non-traversable value (the membership test of a string/list can succeed or
fail where `getitem` always raises `TypeError`). -/
theorem C6_amended (d : Val) (ks : List String) (trav : List String) :
    (getRecur d ks trav).1 = (getReduce d ks).1 ∧
    (recurClass (getRecur d ks trav).2 = reduceClass (getReduce d ks).2 ∨
      (recurClass (getRecur d ks trav).2 = some FailKind.absentKey ∧
       reduceClass (getReduce d ks).2 = some FailKind.nonTraversable)) := by
  induction ks generalizing d trav with
  | nil => simp [getRecur, getReduce, reduceGetitem, recurClass, reduceClass]
  | cons k rest ih =>
    cases d with
    | vnone =>
      simp [getRecur, getReduce, reduceGetitem, getItemVal, keyInVal, recurClass,
        reduceClass]
    | vstr s =>
      cases hsub : decide (k.data <:+: s.data) <;>
        simp [getRecur, getReduce, reduceGetitem, getItemVal, keyInVal, hsub,
          recurClass, reduceClass]
    | vseq l =>
      cases hmem : l.any (fun x => decide (x = Val.vstr k)) <;>
        simp [getRecur, getReduce, reduceGetitem, getItemVal, keyInVal, hmem,
          recurClass, reduceClass]
    | vmap m =>
      cases hlk : lookupKey m k with
      | none =>
        simp [getRecur, getReduce, reduceGetitem, getItemVal, keyInVal, hlk,
          recurClass, reduceClass]
      | some v =>
        have := ih v (trav ++ [k])
        simpa [getRecur, getReduce, reduceGetitem, getItemVal, keyInVal, hlk,
          recurClass, reduceClass] using this

/-! ### Path expressions (`anyconfig.parser.parse_path` is not in the sources;
modelled from the spec) and `get` / `_mk_nested_dic` -/

/-- Modelled from the spec: `anyconfig.parser.PATH_SEPS` — the separator
characters of a path expression are `.` and `/`. -/
def isSepChar (c : Char) : Bool :=
  c = '.' ∨ c = '/'

def splitPathAux : List Char → List Char → List String
  | [], acc => if acc = [] then [] else [String.mk acc.reverse]
  | c :: rest, acc =>
    if isSepChar c then
      if acc = [] then splitPathAux rest []
      else String.mk acc.reverse :: splitPathAux rest []
    else splitPathAux rest (c :: acc)

/-- Modelled from the spec: `anyconfig.parser.parse_path` — split a path
expression on the separator characters, collapsing empty segments (leading,
trailing and consecutive separators produce no segments). -/
def parsePath (s : String) : List String :=
  splitPathAux s.toList []

/-- `_mk_nested_dic(path, val)`: right-to-left accumulation over the parsed
keys; `None` (here `Option.none`) when the path has no keys.  (`ret.copy()` is
a fresh-dict copy, the identity in this pure embedding.) -/
def mkNestedDic (path : String) (v : Val) : Option Val :=
  (parsePath path).reverse.foldl
    (fun ret key =>
      some (Val.vmap [(key, match ret with | none => v | some r => r)]))
    none

/-- A Python value out of an optional result (`None` becomes `vnone`). -/
def optVal : Option Val → Val
  | none => Val.vnone
  | some v => v

/-- `get(dic, path)`: runs `_get_reduce` on the parsed path and returns only
the first component; a failure surfaces as Python `None`. -/
def getPyVal (d : Val) (path : String) : Val :=
  optVal (getReduce d (parsePath path)).1

/-- The nested single-key mapping chain ending in `v`. -/
def nestVal : List String → Val → Val
  | [], v => v
  | k :: rest, v => Val.vmap [(k, nestVal rest v)]

theorem mkNested_foldr (v : Val) : (ks : List String) → ks ≠ [] →
    ks.foldr
        (fun key ret =>
          some (Val.vmap [(key, match ret with | none => v | some r => r)]))
        none
      = some (nestVal ks v)
  | [], h => absurd rfl h
  | [_], _ => rfl
  | k :: k₂ :: rest, _ => by
    have ih := mkNested_foldr v (k₂ :: rest) (List.cons_ne_nil k₂ rest)
    rw [List.foldr_cons, ih]
    rfl

theorem reduce_nest (ks : List String) (v : Val) :
    reduceGetitem (nestVal ks v) ks = Except.ok v := by
  induction ks with
  | nil => simp [nestVal, reduceGetitem]
  | cons k rest ih =>
    simp [nestVal, reduceGetitem, getItemVal, lookupKey, ih]

/-- Claim C7 at one input. -/
def claimC7At (p : String) (v : Val) : Prop :=
  getPyVal (optVal (mkNestedDic p v)) p = v

/-- C7 counterexample: for the root path `/` (no segments), `_mk_nested_dic`
returns `None` regardless of the value, and `get` on the root path then
returns `None`, not the stored value. -/
theorem C7_counterexample : ¬ claimC7At "/" (Val.vstr "x") := by
  unfold claimC7At
  decide

/-- C7 (amended): for every path expression that parses to at least one
segment, retrieving the path from the nested mapping freshly built for it
returns the stored value; for the empty (root) path `_mk_nested_dic` returns
`None`, so the property holds there only for a stored `None`. -/
theorem C7_amended (p : String) (v : Val) (hp : parsePath p ≠ []) :
    getPyVal (optVal (mkNestedDic p v)) p = v := by
  unfold mkNestedDic
  rw [List.foldl_reverse]
  rw [mkNested_foldr v (parsePath p) hp]
  simp [optVal, getPyVal, getReduce, reduce_nest]

/-- Witness for C7 (amended) at the concrete path `a.b`. -/
theorem C7_amended_witness :
    getPyVal (optVal (mkNestedDic "a.b" (Val.vstr "1"))) "a.b" = Val.vstr "1" :=
  C7_amended "a.b" (Val.vstr "1") (by decide)

/-- Claim C8: if `get` reported the two failure kinds distinctly to the
caller, an absent-key failure and a non-traversable failure could never yield
the identical caller-visible result. -/
def claimC8 : Prop :=
  ∀ (d₁ : Val) (p₁ : String) (d₂ : Val) (p₂ : String),
    reduceClass (getReduce d₁ (parsePath p₁)).2 = some FailKind.absentKey →
    reduceClass (getReduce d₂ (parsePath p₂)).2 = some FailKind.nonTraversable →
    getPyVal d₁ p₁ ≠ getPyVal d₂ p₂

/-- C8 counterexample: an absent key (`{"a": "1"}` at path `b`) and a
non-traversable value (`"s"` at path `b`) both make `get` return `None` —
the caller cannot tell the two kinds apart. -/
theorem C8_counterexample : ¬ claimC8 := by
  intro h
  exact (h (Val.vmap [("a", Val.vstr "1")]) "b" (Val.vstr "s") "b"
    (by decide) (by decide)) (by decide)

/-- C8 (amended): `get` never raises (both exception kinds are caught), but it
returns `None` for every failure, conflating the two failure kinds — and a
stored `None` — in its return value; the distinction survives only in
`_get_reduce`'s message component, which `get` discards. -/
theorem C8_amended (d : Val) (p : String) :
    getPyVal d p = Val.vnone ↔
      ((getReduce d (parsePath p)).1 = none ∨
        (getReduce d (parsePath p)).1 = some Val.vnone) := by
  unfold getPyVal optVal
  cases h : (getReduce d (parsePath p)).1 with
  | none => simp
  | some v => simp

/-! ### Element → container: `elem_to_container` and its step functions.

Python mutates `dic` and `subdic` in place with `subdic` aliased as
`dic[_tweak_ns(elem.tag)]`.  Here the step functions thread the pair of the
*directly written* `dic` entries and `subdic`; the final container is
assembled by inserting the direct writes (in order) after the initial
`(tweaked_tag, subdic)` entry.  This is faithful because in every control path
of the source no `subdic` write follows a direct `dic[elem.tag]` write. -/

/-- The keyword options threaded through the XML backend, with the tag markers
already resolved by `_complement_tag_options` and the value micro-parser
(`anyconfig.parser.parse_single`, an external collaborator per the spec)
injected as a function. -/
structure Options where
  nspaces : List (String × String)
  attrsKey : String
  textKey : String
  childrenKey : String
  mergeAttrs : Bool
  acParseValue : Bool
  parseSingle : String → Val

/-- Default options: no namespaces, default markers, no merging, no value
parsing. -/
def defOpts : Options :=
  ⟨[], "@attrs", "@text", "@children", false, false, Val.vstr⟩

/-- `_parse_text(val)`: parse iff the value is truthy and `ac_parse_value`. -/
def parseText (opts : Options) (s : String) : Val :=
  if s ≠ "" ∧ opts.acParseValue then opts.parseSingle s else Val.vstr s

/-- `_parse_attrs(elem)`. -/
def parseAttrs (opts : Options) (e : Element) : List (String × Val) :=
  if opts.acParseValue then e.attrib.map (fun kv => (kv.1, opts.parseSingle kv.2))
  else e.attrib.map (fun kv => (kv.1, Val.vstr kv.2))

/-- `_process_elem_text(elem, dic, subdic)` (invoked when `elem.text` is
truthy): strips `elem.text` in place, then stores the parsed text under the
text marker of `subdic`, or directly under the tag when the element has no
attributes and no children. -/
def process_elem_text (opts : Options) (e : Element)
    (dic subdic : List (String × Val)) :
    Element × List (String × Val) × List (String × Val) :=
  let stripped := pyStrip (e.text.getD "")
  let e₁ := Element.mk e.tag e.attrib (some stripped) e.children
  if stripped ≠ "" then
    if e.children ≠ [] ∨ e.attrib ≠ [] then
      (e₁, dic, setKey subdic opts.textKey (parseText opts stripped))
    else
      (e₁, setKey dic e.tag (parseText opts stripped), subdic)
  else (e₁, dic, subdic)

/-- `_process_elem_attrs(elem, dic, subdic)` (invoked when `elem.attrib` is
nonempty; `elem.text` has already been stripped): with `merge_attrs` and no
text and no children the attributes-as-mapping is assigned directly to the
tag, otherwise it is stored under the attrs marker of `subdic`. -/
def process_elem_attrs (opts : Options) (e : Element)
    (dic subdic : List (String × Val)) :
    List (String × Val) × List (String × Val) :=
  let adic := Val.vmap (parseAttrs opts e)
  if ¬ textTruthy e.text ∧ e.children = [] ∧ opts.mergeAttrs then
    (setKey dic e.tag adic, subdic)
  else (dic, setKey subdic opts.attrsKey adic)

/-- `_dicts_have_unique_keys(dics)`: the number of distinct keys equals the
total number of entries. -/
def dictsHaveUniqueKeys (ds : List (List (String × Val))) : Bool :=
  ((ds.map (fun d => d.map Prod.fst)).flatten).dedup.length = (ds.map List.length).sum

/-- `_merge_dicts(dics)`: ordered insertion of all entries in order. -/
def mergeDicts (ds : List (List (String × Val))) : List (String × Val) :=
  (ds.flatten).foldl (fun acc kv => setKey acc kv.1 kv.2) []

/-- `_process_children_elems(elem, dic, subdic)`, with the recursively
converted children (`cdics`) hoisted to a parameter: merge on key-set
uniqueness, else a bare sequence when `subdic` is empty, else the sequence
under the children marker. -/
def process_children_elems (opts : Options) (e : Element)
    (cdics : List (List (String × Val)))
    (dic subdic : List (String × Val)) :
    List (String × Val) × List (String × Val) :=
  let first := if opts.mergeAttrs then e.attrib.map (fun kv => (kv.1, Val.vstr kv.2))
               else subdic
  let sdics := first :: cdics
  if dictsHaveUniqueKeys sdics then
    (setKey dic e.tag (Val.vmap (mergeDicts sdics)), subdic)
  else if subdic = [] then
    (setKey dic e.tag (Val.vseq (cdics.map Val.vmap)), subdic)
  else
    (dic, setKey subdic opts.childrenKey (Val.vseq (cdics.map Val.vmap)))

/-- The text phase of `elem_to_container` (runs only on truthy text). -/
def textPhase (opts : Options) (e : Element) :
    Element × List (String × Val) × List (String × Val) :=
  if textTruthy e.text then process_elem_text opts e [] [] else (e, [], [])

/-- The attrs phase of `elem_to_container` (runs only on nonempty attrib). -/
def attrsPhase (opts : Options) (e₁ : Element)
    (dic subdic : List (String × Val)) :
    List (String × Val) × List (String × Val) :=
  if e₁.attrib ≠ [] then process_elem_attrs opts e₁ dic subdic else (dic, subdic)

mutual

/-- `elem_to_container(elem)`: returns the produced container together with
the element as left behind by the call (the source strips `elem.text` in
place, recursively). -/
def elem_to_container (opts : Options) : Element → List (String × Val) × Element
  | .mk tag attrib text children =>
    let e := Element.mk tag attrib text children
    let tweaked := tweakNs opts.nspaces tag
    let tds := textPhase opts e
    let ds₂ := attrsPhase opts tds.1 tds.2.1 tds.2.2
    let cres := childrenToContainers opts children
    let cdics := cres.map Prod.fst
    let ds₃ :=
      if children ≠ [] then process_children_elems opts tds.1 cdics ds₂.1 ds₂.2
      else if ¬ textTruthy tds.1.text ∧ attrib = [] then
        (setKey ds₂.1 tag Val.vnone, ds₂.2)
      else ds₂
    (ds₃.1.foldl (fun acc kv => setKey acc kv.1 kv.2) [(tweaked, Val.vmap ds₃.2)],
     Element.mk tag attrib tds.1.text (cres.map Prod.snd))

def childrenToContainers (opts : Options) :
    List Element → List (List (String × Val) × Element)
  | [] => []
  | c :: cs => elem_to_container opts c :: childrenToContainers opts cs

end

/-- `root_to_container(root, nspaces)`: inserts the `xmlns` attributes into the
root element when a namespace map is given (a mutation of the input tree in
the source), then converts.  The tag markers are assumed resolved
(`_complement_tag_options`). -/
def root_to_container (opts : Options) (root : Option Element) :
    List (String × Val) × Option Element :=
  match root with
  | none => ([], none)
  | some r =>
    let r₁ :=
      if opts.nspaces ≠ [] then
        Element.mk r.tag
          (opts.nspaces.foldl
            (fun acc uv =>
              setKey acc (if uv.2 ≠ "" then "xmlns:" ++ uv.2 else "xmlns") uv.1)
            r.attrib)
          r.text r.children
      else r
    let cr := elem_to_container opts r₁
    (cr.1, some cr.2)

/-- Options with a namespace map `{u: p}`, otherwise default. -/
def nsOpts : Options :=
  ⟨[("u", "p")], "@attrs", "@text", "@children", false, false, Val.vstr⟩

/-- C2 (code bug): for a text-only element whose tag is rewritten by the
namespace map, `elem_to_container` returns a mapping with TWO entries: the
rewritten tag mapped to a leftover empty sub-mapping (inserted at line 288 of
`xml.py` under `_tweak_ns(elem.tag)`) and the raw tag mapped to the text
(written at line 201 under the raw `elem.tag`).  The documented contract — a
one-entry mapping keyed by the rewritten tag — is broken by this
inconsistency. -/
theorem C2_code_behavior :
    (elem_to_container nsOpts (Element.mk "{u}a" [] (some "t") [])).1
      = [("p:a", Val.vmap []), ("{u}a", Val.vstr "t")] := by
  decide

/-! ### C10: the transduction mutates its input -/

mutual

/-- The element tree as left behind by `elem_to_container`: every truthy text
is stripped in place; tags, attributes and tree structure are untouched. -/
def stripTexts : Element → Element
  | .mk tag attrib text children =>
    Element.mk tag attrib
      (if textTruthy text then some (pyStrip (text.getD "")) else text)
      (stripTextsList children)

def stripTextsList : List Element → List Element
  | [] => []
  | c :: cs => stripTexts c :: stripTextsList cs

end

theorem textPhase_fst (opts : Options) (e : Element) :
    (textPhase opts e).1
      = Element.mk e.tag e.attrib
          (if textTruthy e.text then some (pyStrip (e.text.getD "")) else e.text)
          e.children := by
  by_cases h : textTruthy e.text
  · simp only [textPhase, if_pos h, process_elem_text]
    split
    · split <;> simp [h]
    · simp [h]
  · simp only [textPhase, if_neg h]
    cases e
    simp only [Bool.not_eq_true] at h
    simp [h, Element.tag, Element.attrib, Element.text, Element.children]

mutual

theorem elem_to_container_snd (opts : Options) :
    ∀ e : Element, (elem_to_container opts e).2 = stripTexts e
  | .mk tag attrib text children => by
    have hc := childrenToContainers_snd opts children
    simp only [elem_to_container, stripTexts]
    rw [textPhase_fst]
    simp only [Element.text, hc]

theorem childrenToContainers_snd (opts : Options) :
    ∀ cs : List Element,
      (childrenToContainers opts cs).map Prod.snd = stripTextsList cs
  | [] => rfl
  | c :: cs => by
    simp only [childrenToContainers, stripTextsList, List.map_cons,
      elem_to_container_snd opts c, childrenToContainers_snd opts cs]

end

/-- C10 counterexample: converting `<a>  x </a>` does mutate the input tree —
the element's text is stripped in place (`elem.text = elem.text.strip()`,
`xml.py` line 195). -/
theorem C10_counterexample :
    ¬ ((elem_to_container defOpts (Element.mk "a" [] (some "  x ") [])).2
        = Element.mk "a" [] (some "  x ") []) := by
  decide

/-- C10 (amended): the transduction's only mutations of the input are (a)
`elem_to_container` strips every element's truthy text in place, and (b)
`root_to_container` additionally inserts `xmlns` attributes into the root
when a namespace map is given; tags, children structure and all other
attributes are left unchanged. -/
theorem C10_amended (opts : Options) (e : Element) :
    (elem_to_container opts e).2 = stripTexts e ∧
    (root_to_container opts (some e)).2
      = some (stripTexts
          (if opts.nspaces ≠ [] then
            Element.mk e.tag
              (opts.nspaces.foldl
                (fun acc uv =>
                  setKey acc (if uv.2 ≠ "" then "xmlns:" ++ uv.2 else "xmlns") uv.1)
                e.attrib)
              e.text e.children
          else e)) := by
  constructor
  · exact elem_to_container_snd opts e
  · simp only [root_to_container]
    split <;> rw [elem_to_container_snd]

/-! ### Anatomy of `elem_to_container`: exposed phases and small lemmas -/

theorem lookupKey_setKey {β : Type} (m : List (String × β)) (k : String) (v : β) :
    lookupKey (setKey m k v) k = some v := by
  induction m with
  | nil => simp [setKey, lookupKey]
  | cons kv rest ih =>
    obtain ⟨k₁, v₁⟩ := kv
    by_cases h : k₁ = k
    · simp [setKey, h, lookupKey]
    · simp [setKey, h, lookupKey, ih]

/-- The per-child containers produced by the recursion. -/
def cdicsOf (opts : Options) (e : Element) : List (List (String × Val)) :=
  (childrenToContainers opts e.children).map Prod.fst

/-- The `dic` direct writes (`.1`) and the `subdic` content (`.2`) after all
three phases of `elem_to_container`. -/
def phase3 (opts : Options) (e : Element) :
    List (String × Val) × List (String × Val) :=
  let tds := textPhase opts e
  let ds₂ := attrsPhase opts tds.1 tds.2.1 tds.2.2
  if e.children ≠ [] then
    process_children_elems opts tds.1 (cdicsOf opts e) ds₂.1 ds₂.2
  else if ¬ textTruthy tds.1.text ∧ e.attrib = [] then
    (setKey ds₂.1 e.tag Val.vnone, ds₂.2)
  else ds₂

/-- The produced container, in terms of the phases: the direct writes are
inserted after the initial `(tweaked_tag, subdic)` entry. -/
theorem elem_to_container_fst (opts : Options) (e : Element) :
    (elem_to_container opts e).1
      = (phase3 opts e).1.foldl (fun acc kv => setKey acc kv.1 kv.2)
          [(tweakNs opts.nspaces e.tag, Val.vmap (phase3 opts e).2)] := by
  obtain ⟨tag, attrib, text, children⟩ := e
  rfl

/-- The sub-mapping (`subdic`) after the text and attrs phases — the state the
children phase examines. -/
def preSubdic (opts : Options) (e : Element) : List (String × Val) :=
  (attrsPhase opts (textPhase opts e).1 (textPhase opts e).2.1 (textPhase opts e).2.2).2

/-- The direct `dic` writes after the text and attrs phases. -/
def preDic (opts : Options) (e : Element) : List (String × Val) :=
  (attrsPhase opts (textPhase opts e).1 (textPhase opts e).2.1 (textPhase opts e).2.2).1

theorem phase3_children (opts : Options) (e : Element) (h : e.children ≠ []) :
    phase3 opts e
      = process_children_elems opts (textPhase opts e).1 (cdicsOf opts e)
          (preDic opts e) (preSubdic opts e) := by
  simp only [phase3, preDic, preSubdic, if_pos h]

theorem textPhase_state (opts : Options) (e : Element)
    (h : textTruthy ((textPhase opts e).1.text) = false) :
    (textPhase opts e).2 = ([], []) := by
  cases ht : textTruthy e.text with
  | true =>
    have hs : pyStrip (e.text.getD "") = "" := by
      rw [textPhase_fst] at h
      simp only [Element.text_mk] at h
      rw [if_pos ht] at h
      simpa [textTruthy] using h
    simp only [textPhase, if_pos ht, process_elem_text, hs]
    simp
  | false => simp [textPhase, ht]

theorem textPhase_attrib (opts : Options) (e : Element) :
    (textPhase opts e).1.attrib = e.attrib := by
  rw [textPhase_fst, Element.attrib_mk]

theorem textPhase_children (opts : Options) (e : Element) :
    (textPhase opts e).1.children = e.children := by
  rw [textPhase_fst, Element.children_mk]

theorem textPhase_tag (opts : Options) (e : Element) :
    (textPhase opts e).1.tag = e.tag := by
  rw [textPhase_fst, Element.tag_mk]

theorem parseAttrs_textPhase (opts : Options) (e : Element) :
    parseAttrs opts (textPhase opts e).1 = parseAttrs opts e := by
  simp [parseAttrs, textPhase_attrib]

theorem phase3_attrs_direct (opts : Options) (e : Element) (hattr : e.attrib ≠ [])
    (hm : opts.mergeAttrs = true)
    (htx : textTruthy ((textPhase opts e).1.text) = false)
    (hch : e.children = []) :
    phase3 opts e = ([(e.tag, Val.vmap (parseAttrs opts e))], []) := by
  have hstate := textPhase_state opts e htx
  unfold phase3
  rw [hch]
  simp only [ne_eq, not_true_eq_false, if_false, hstate]
  rw [if_neg (by simp [hattr])]
  unfold attrsPhase
  rw [if_pos (by simpa [textPhase_attrib] using hattr)]
  unfold process_elem_attrs
  rw [if_pos ⟨by simp [htx], by simp [textPhase_children, hch], hm⟩]
  rw [parseAttrs_textPhase, textPhase_tag]
  rfl

theorem preSubdic_attrs (opts : Options) (e : Element) (hattr : e.attrib ≠ [])
    (hother : ¬ (opts.mergeAttrs = true ∧
        textTruthy ((textPhase opts e).1.text) = false ∧ e.children = [])) :
    preSubdic opts e
      = setKey (textPhase opts e).2.2 opts.attrsKey
          (Val.vmap (parseAttrs opts e)) := by
  unfold preSubdic attrsPhase
  rw [if_pos (by simpa [textPhase_attrib] using hattr)]
  unfold process_elem_attrs
  rw [if_neg (by
    intro hcond
    refine hother ⟨hcond.2.2, by simpa using hcond.1, ?_⟩
    rw [← textPhase_children opts e]
    exact hcond.2.1)]
  rw [parseAttrs_textPhase]

/-- C3: for every element with attributes: when `merge_attrs` is set and the
element has no non-whitespace text (its stripped text is falsy) and no
children, the raw tag maps directly to the attributes-as-mapping in the
produced container; in every other case the attributes are stored under the
attrs marker inside the element's sub-mapping. -/
theorem C3_attrs_placement (opts : Options) (e : Element) (hattr : e.attrib ≠ []) :
    (opts.mergeAttrs = true → textTruthy ((textPhase opts e).1.text) = false →
      e.children = [] →
      lookupKey (elem_to_container opts e).1 e.tag
        = some (Val.vmap (parseAttrs opts e))) ∧
    (¬ (opts.mergeAttrs = true ∧ textTruthy ((textPhase opts e).1.text) = false ∧
          e.children = []) →
      lookupKey (preSubdic opts e) opts.attrsKey
        = some (Val.vmap (parseAttrs opts e))) := by
  constructor
  · intro hm htx hch
    rw [elem_to_container_fst, phase3_attrs_direct opts e hattr hm htx hch]
    simp only [List.foldl_cons, List.foldl_nil]
    exact lookupKey_setKey _ _ _
  · intro hother
    rw [preSubdic_attrs opts e hattr hother]
    exact lookupKey_setKey _ _ _

/-- Options with `merge_attrs` set, otherwise default. -/
def mergeOpts : Options :=
  ⟨[], "@attrs", "@text", "@children", true, false, Val.vstr⟩

/-- Witness for C3 at `<a x="1"/>` with `merge_attrs`; the attributes are
absorbed: `{"a": {"x": "1"}}`. -/
theorem C3_attrs_placement_witness :
    lookupKey (elem_to_container mergeOpts (Element.mk "a" [("x", "1")] none [])).1 "a"
      = some (Val.vmap [("x", Val.vstr "1")]) :=
  (C3_attrs_placement mergeOpts (Element.mk "a" [("x", "1")] none [])
    (by decide)).1 rfl (by decide) rfl

/-! ### C1: the children trichotomy -/

/-- The parent's attributes as a container mapping (`to_container(elem.attrib)`,
values kept as raw strings). -/
def attrsAsMap (e : Element) : List (String × Val) :=
  e.attrib.map (fun kv => (kv.1, Val.vstr kv.2))

/-- The first dict of the uniqueness check in `_process_children_elems`: the
parent's attributes-as-mapping under `merge_attrs`, else the parent's
sub-mapping. -/
def childFirstDic (opts : Options) (e : Element) : List (String × Val) :=
  if opts.mergeAttrs = true then attrsAsMap e else preSubdic opts e

/-- Claim C1 at one input, as stated: disjointness (and the merge) range over
the per-child mappings only, together with the parent's attributes-as-mapping
exactly when `merge_attrs` is set; ties go to a sequence when there is no
sub-mapping content, else to the children marker. -/
def claimC1At (opts : Options) (e : Element) : Prop :=
  e.children ≠ [] →
  (dictsHaveUniqueKeys
      ((if opts.mergeAttrs = true then [attrsAsMap e] else []) ++ cdicsOf opts e) = true →
    lookupKey (elem_to_container opts e).1 e.tag
      = some (Val.vmap (mergeDicts
          ((if opts.mergeAttrs = true then [attrsAsMap e] else []) ++ cdicsOf opts e)))) ∧
  (dictsHaveUniqueKeys
      ((if opts.mergeAttrs = true then [attrsAsMap e] else []) ++ cdicsOf opts e) = false →
    textTruthy ((textPhase opts e).1.text) = false → e.attrib = [] →
    lookupKey (elem_to_container opts e).1 e.tag
      = some (Val.vseq ((cdicsOf opts e).map Val.vmap))) ∧
  (dictsHaveUniqueKeys
      ((if opts.mergeAttrs = true then [attrsAsMap e] else []) ++ cdicsOf opts e) = false →
    ¬ (textTruthy ((textPhase opts e).1.text) = false ∧ e.attrib = []) →
    ∃ m, lookupKey (elem_to_container opts e).1 (tweakNs opts.nspaces e.tag)
            = some (Val.vmap m) ∧
         lookupKey m opts.childrenKey
            = some (Val.vseq ((cdicsOf opts e).map Val.vmap)))

/-- C1 counterexample: `<a>t<b>2</b></a>` (no `merge_attrs`).  The only child
mapping `{"b": "2"}` is trivially disjoint, so the claim requires
`{"a": {"b": "2"}}`; the code also folds the parent's sub-mapping (its text
marker) into the check and the merge and produces
`{"a": {"@text": "t", "b": "2"}}`. -/
theorem C1_counterexample :
    ¬ claimC1At defOpts
        (Element.mk "a" [] (some "t") [Element.mk "b" [] (some "2") []]) := by
  intro h
  have h1 := (h (by decide)).1 (by decide)
  exact absurd h1 (by decide)

theorem textPhase_dic (opts : Options) (e : Element)
    (hor : e.children ≠ [] ∨ e.attrib ≠ []) : (textPhase opts e).2.1 = [] := by
  unfold textPhase process_elem_text
  dsimp only
  split <;> (try split) <;> (try rfl)

theorem preDic_children (opts : Options) (e : Element) (hch : e.children ≠ []) :
    preDic opts e = [] := by
  have hd := textPhase_dic opts e (Or.inl hch)
  unfold preDic attrsPhase
  by_cases ha : (textPhase opts e).1.attrib ≠ []
  · rw [if_pos ha]
    unfold process_elem_attrs
    rw [if_neg (by
      intro hc
      exact hch (by rw [← textPhase_children opts e]; exact hc.2.1))]
    exact hd
  · rw [if_neg ha]
    exact hd

/-- C1 (amended): for every element with children, the uniqueness check and
the merge range over the code's first dict — the parent's attributes-as-mapping
when `merge_attrs` is set, otherwise the parent's existing sub-mapping (its
text/attrs markers) — together with the per-child mappings; on a repeated key
the children become a bare sequence exactly when the sub-mapping is empty,
and otherwise the sequence is stored under the children marker inside the
sub-mapping.  No partial merge occurs. -/
theorem C1_amended (opts : Options) (e : Element) (hch : e.children ≠ []) :
    (dictsHaveUniqueKeys (childFirstDic opts e :: cdicsOf opts e) = true →
      lookupKey (elem_to_container opts e).1 e.tag
        = some (Val.vmap (mergeDicts (childFirstDic opts e :: cdicsOf opts e)))) ∧
    (dictsHaveUniqueKeys (childFirstDic opts e :: cdicsOf opts e) = false →
      preSubdic opts e = [] →
      lookupKey (elem_to_container opts e).1 e.tag
        = some (Val.vseq ((cdicsOf opts e).map Val.vmap))) ∧
    (dictsHaveUniqueKeys (childFirstDic opts e :: cdicsOf opts e) = false →
      preSubdic opts e ≠ [] →
      lookupKey (elem_to_container opts e).1 (tweakNs opts.nspaces e.tag)
        = some (Val.vmap (setKey (preSubdic opts e) opts.childrenKey
            (Val.vseq ((cdicsOf opts e).map Val.vmap))))) := by
  have h3 := phase3_children opts e hch
  rw [preDic_children opts e hch] at h3
  have hfirst : (if opts.mergeAttrs = true then
        (textPhase opts e).1.attrib.map (fun kv => (kv.1, Val.vstr kv.2))
      else preSubdic opts e) = childFirstDic opts e := by
    unfold childFirstDic attrsAsMap
    rw [textPhase_attrib]
  refine ⟨?_, ?_, ?_⟩
  · intro hu
    rw [elem_to_container_fst, h3]
    unfold process_children_elems
    rw [hfirst, if_pos hu, textPhase_tag]
    simp only [List.foldl_cons, List.foldl_nil]
    exact lookupKey_setKey _ _ _
  · intro hu hsub
    rw [elem_to_container_fst, h3]
    unfold process_children_elems
    rw [hfirst, if_neg (by simp [hu]), if_pos hsub, textPhase_tag]
    simp only [List.foldl_cons, List.foldl_nil]
    exact lookupKey_setKey _ _ _
  · intro hu hsub
    rw [elem_to_container_fst, h3]
    unfold process_children_elems
    rw [hfirst, if_neg (by simp [hu]), if_neg hsub]
    simp [lookupKey]

/-- Witness for C1 (amended) at `<a>t<b>2</b></a>`: the merge also carries the
parent's text marker: `{"a": {"@text": "t", "b": "2"}}`. -/
theorem C1_amended_witness :
    lookupKey (elem_to_container defOpts
        (Element.mk "a" [] (some "t") [Element.mk "b" [] (some "2") []])).1 "a"
      = some (Val.vmap [("@text", Val.vstr "t"), ("b", Val.vstr "2")]) := by
  have h := (C1_amended defOpts
    (Element.mk "a" [] (some "t") [Element.mk "b" [] (some "2") []])
    (by decide)).1 (by decide)
  simp only [Element.tag_mk] at h
  rw [h]
  decide

/-! ### Container → element: `container_to_etree`

Python errors are modelled by `PyErr`.  Where CPython would accept a
non-string payload for an attribute value or an element text and only crash
later when the tree is serialized (`etree_write` / `ET.tostring`), this
embedding fails eagerly with `typeError`; no claim depends on those corners.
The recursive call `container_to_etree(val, parent=elem)` on a non-dict value
only (possibly) sets `elem.text`; that two-line scalar base case is inlined at
its call sites below to keep the recursion structural. -/

/-- Python exception kinds raised by the dump direction. -/
inductive PyErr where
  | typeError : PyErr
  | attributeError : PyErr
deriving DecidableEq

/-- What `container_to_etree` returns: Python `None` (the scalar branch falls
off with a bare `return`) or `ET.ElementTree(parent)`. -/
inductive DumpRet where
  | pyNone : DumpRet
  | tree (root : Option Element) : DumpRet

instance : DecidableEq DumpRet := fun a b =>
  match a, b with
  | .pyNone, .pyNone => isTrue rfl
  | .pyNone, .tree _ => isFalse (fun h => DumpRet.noConfusion h)
  | .tree _, .pyNone => isFalse (fun h => DumpRet.noConfusion h)
  | .tree r₁, .tree r₂ =>
    match decEq r₁ r₂ with
    | isTrue h => isTrue (by rw [h])
    | isFalse h => isFalse (fun hh => h (DumpRet.tree.inj hh))

/-- Modelled from the spec: `anyconfig.mdicts.is_dict_like` (not under `src/`)
— the explicit Mapping-variant check. -/
def isDictLike : Val → Bool
  | .vmap _ => true
  | _ => false

/-- Python truthiness of a container value. -/
def pyTruthy : Val → Bool
  | .vnone => false
  | .vstr s => s ≠ ""
  | .vmap m => m ≠ []
  | .vseq l => l ≠ []

/-- `elem.set(k, v)` (replace or append, insertion-ordered like ET). -/
def setAttr (e : Element) (k v : String) : Element :=
  Element.mk e.tag (setKey e.attrib k v) e.text e.children

/-- `elem.text = tx`. -/
def setText (e : Element) (tx : Option String) : Element :=
  Element.mk e.tag e.attrib tx e.children

/-- `parent.append(c)`. -/
def addChild (e c : Element) : Element :=
  Element.mk e.tag e.attrib e.text (e.children ++ [c])

/-- The attrs-marker loop: `for attr, aval in iteritems(val): parent.set(attr,
_str(aval))`.  Invoked with a live parent; non-string values are
unrepresentable attribute payloads (see the section comment). -/
def setAttrsList (opts : Options) : List (String × Val) → Element → Except PyErr Element
  | [], pe => pure pe
  | (a, av) :: rest, pe =>
    match av with
    | .vstr s => setAttrsList opts rest (setAttr pe a s)
    | .vnone =>
      if opts.acParseValue then setAttrsList opts rest (setAttr pe a "None")
      else throw .typeError
    | _ => throw .typeError

instance {e a : Type} [DecidableEq e] [DecidableEq a] : DecidableEq (Except e a) :=
  fun x y =>
    match x, y with
    | .ok v, .ok w =>
      match decEq v w with
      | isTrue h => isTrue (by rw [h])
      | isFalse h => isFalse (fun hh => h (Except.ok.inj hh))
    | .error v, .error w =>
      match decEq v w with
      | isTrue h => isTrue (by rw [h])
      | isFalse h => isFalse (fun hh => h (Except.error.inj hh))
    | .ok _, .error _ => isFalse (fun h => Except.noConfusion h)
    | .error _, .ok _ => isFalse (fun h => Except.noConfusion h)

mutual

/-- `container_to_etree(obj, parent)`: returns the Python return value and the
updated parent. -/
def containerToEtree (opts : Options) (obj : Val) (parent : Option Element) :
    Except PyErr (DumpRet × Option Element) :=
  match obj with
  | .vmap entries => do
    let p ← dumpEntries opts entries parent
    pure (DumpRet.tree p, p)
  | .vnone => pure (DumpRet.pyNone, parent)      -- obj = False: falsy, no text
  | .vstr s =>
    match parent with
    | some pe =>
      if s ≠ "" then pure (DumpRet.pyNone, some (setText pe (some s)))
      else pure (DumpRet.pyNone, some pe)
    | none => pure (DumpRet.pyNone, none)
  | .vseq l =>
    match parent with
    | some _ => if l ≠ [] then throw .typeError else pure (DumpRet.pyNone, parent)
    | none => pure (DumpRet.pyNone, none)

/-- The `for key, val in iteritems(obj)` loop; `parent` is reassigned by the
default branch (`parent = _get_or_update_parent(...)`). -/
def dumpEntries (opts : Options) (entries : List (String × Val))
    (parent : Option Element) : Except PyErr (Option Element) :=
  match entries with
  | [] => pure parent
  | (k, v) :: rest => do
    let p ← dumpEntry opts k v parent
    dumpEntries opts rest p

/-- One entry of the loop body of `container_to_etree`. -/
def dumpEntry (opts : Options) (key : String) (v : Val)
    (parent : Option Element) : Except PyErr (Option Element) :=
  if key = opts.attrsKey then
    match v with
    | .vmap am =>
      match am with
      | [] => pure parent                        -- zero iterations
      | _ :: _ =>
        match parent with
        | none => throw .attributeError          -- None.set(...)
        | some pe => do
          let pe₁ ← setAttrsList opts am pe
          pure (some pe₁)
    | _ => throw .attributeError                 -- iteritems on a non-dict
  else if key = opts.textKey then
    match parent with
    | none => throw .attributeError              -- None.text = ...
    | some pe =>
      match v with
      | .vstr s => pure (some (setText pe (some s)))
      | .vnone =>
        if opts.acParseValue then pure (some (setText pe (some "None")))
        else pure (some (setText pe none))
      | _ => throw .typeError                    -- container text payload
  else if key = opts.childrenKey then
    match v with
    | .vseq items => descendantsAppend opts items parent
    | .vnone => throw .typeError                 -- `for child in None`
    | .vstr s =>
      if s = "" then pure parent                 -- zero characters iterated
      else throw .attributeError                 -- char.items does not exist
    | .vmap m =>
      match m with
      | [] => pure parent                        -- zero keys iterated
      | _ :: _ => throw .attributeError          -- key.items does not exist
  else do
    -- _get_or_update_parent(key, val, parent)
    let base := Element.mk key [] none []
    let built ←
      match v with
      | .vseq l => pourItems opts l base         -- vals = val (iterable)
      | .vmap m => do                            -- vals = [val]; dict branch
        let p ← dumpEntries opts m (some base)
        pure (p.getD base)
      | .vstr s =>                               -- vals = [val]; scalar branch
        if s ≠ "" then pure (setText base (some s)) else pure base
      | .vnone => pure base
    match parent with
    | none => pure (some built)
    | some pe => pure (some (addChild pe built))

/-- `_elem_from_descendants(children_nodes)` as consumed by the children
branch: each child dict's entries become child elements, appended lazily to
`parent` (so a `None` parent fails only after the first child is built). -/
def descendantsAppend (opts : Options) (items : List Val)
    (parent : Option Element) : Except PyErr (Option Element) :=
  match items with
  | [] => pure parent
  | child :: rest =>
    match child with
    | .vmap m => do
      let p ← appendChildEntries opts m parent
      descendantsAppend opts rest p
    | _ => throw .attributeError                 -- iteritems on a non-dict
  
/-- One child dict of `_elem_from_descendants`: `celem = ET.Element(ckey);
container_to_etree(cval, parent=celem)` (note: no sequence splitting here),
then `parent.append(celem)`. -/
def appendChildEntries (opts : Options) (entries : List (String × Val))
    (parent : Option Element) : Except PyErr (Option Element) :=
  match entries with
  | [] => pure parent
  | (ck, cv) :: rest => do
    let base := Element.mk ck [] none []
    let celem ←
      match cv with
      | .vmap m => do
        let p ← dumpEntries opts m (some base)
        pure (p.getD base)
      | .vstr s =>
        if s ≠ "" then pure (setText base (some s)) else pure base
      | .vnone => pure base
      | .vseq l =>
        if l ≠ [] then throw .typeError else pure base
    match parent with
    | none => throw .attributeError              -- None.append(celem)
    | some pe => appendChildEntries opts rest (some (addChild pe celem))

/-- The `for val in vals` loop of `_get_or_update_parent` over a sequence
value: each item is poured into the same element. -/
def pourItems (opts : Options) (vals : List Val) (e : Element) :
    Except PyErr Element :=
  match vals with
  | [] => pure e
  | item :: rest => do
    let e₁ ←
      match item with
      | .vmap m => do
        let p ← dumpEntries opts m (some e)
        pure (p.getD e)
      | .vstr s =>
        if s ≠ "" then pure (setText e (some s)) else pure e
      | .vnone => pure e
      | .vseq l =>
        if l ≠ [] then throw .typeError else pure e
    pourItems opts rest e₁

end

/-! ### C4 groundwork: strip idempotence, dict lemmas, the value of a tag -/

theorem dropWhile_length_le {α : Type} (p : α → Bool) (l : List α) :
    (List.dropWhile p l).length ≤ l.length := by
  induction l with
  | nil => simp
  | cons x xs ih =>
    rw [List.dropWhile_cons]
    by_cases hx : p x = true
    · rw [if_pos hx]
      exact Nat.le_trans ih (by simp)
    · rw [if_neg hx]

theorem dropWhile_eq_self_of_prefix {p : Char → Bool} {a b : List Char}
    (hpre : a <+: b) (hb : List.dropWhile p b = b) :
    List.dropWhile p a = a := by
  obtain ⟨t, rfl⟩ := hpre
  cases a with
  | nil => rfl
  | cons y ys =>
    rw [List.cons_append, List.dropWhile_cons] at hb
    by_cases hy : p y = true
    · rw [if_pos hy] at hb
      have hlen := dropWhile_length_le p (ys ++ t)
      rw [hb] at hlen
      simp at hlen
    · rw [List.dropWhile_cons, if_neg hy]

theorem stripChars_idem (cs : List Char) :
    stripChars (stripChars cs) = stripChars cs := by
  have heq : ∀ l : List Char, stripChars l
      = List.rdropWhile isPySpace (List.dropWhile isPySpace l) := fun l => rfl
  rw [heq, heq]
  have h1 : List.dropWhile isPySpace
        (List.rdropWhile isPySpace (List.dropWhile isPySpace cs))
      = List.rdropWhile isPySpace (List.dropWhile isPySpace cs) :=
    dropWhile_eq_self_of_prefix (List.rdropWhile_prefix _ _)
      (List.dropWhile_idempotent _ _)
  rw [h1, List.rdropWhile_idempotent]

theorem pyStrip_idem (s : String) : pyStrip (pyStrip s) = pyStrip s := by
  unfold pyStrip
  rw [show (String.mk (stripChars s.toList)).toList = stripChars s.toList from rfl,
    stripChars_idem]

theorem tweakNs_nil (tag : String) : tweakNs [] tag = tag := rfl

/-- `setKey` on a fresh key appends. -/
theorem setKey_fresh {β : Type} (m : List (String × β)) (k : String) (v : β)
    (h : ∀ kv ∈ m, kv.1 ≠ k) : setKey m k v = m ++ [(k, v)] := by
  induction m with
  | nil => rfl
  | cons kv rest ih =>
    obtain ⟨k₁, v₁⟩ := kv
    simp only [setKey]
    rw [if_neg (h (k₁, v₁) (by simp))]
    rw [ih (fun kv hkv => h kv (by simp [hkv]))]
    rfl

/-- Inserting a list of entries with pairwise-distinct fresh keys into the
empty dict reproduces the list. -/
theorem foldl_setKey_nodup {β : Type} (l acc : List (String × β))
    (hn : ((acc ++ l).map Prod.fst).Nodup) :
    l.foldl (fun m kv => setKey m kv.1 kv.2) acc = acc ++ l := by
  induction l generalizing acc with
  | nil => simp
  | cons kv rest ih =>
    obtain ⟨k, v⟩ := kv
    simp only [List.foldl_cons]
    have hfresh : ∀ p ∈ acc, p.1 ≠ k := by
      intro p hp
      intro hpk
      have : k ∈ acc.map Prod.fst := by
        exact List.mem_map.mpr ⟨p, hp, hpk⟩
      have hk : k ∈ ((k, v) :: rest).map Prod.fst := by simp
      have := List.disjoint_of_nodup_append (by simpa using hn)
      exact absurd hk (this ‹k ∈ acc.map Prod.fst›)
    rw [setKey_fresh acc k v hfresh]
    have hn₂ : (((acc ++ [(k, v)]) ++ rest).map Prod.fst).Nodup := by
      simpa using hn
    rw [ih (acc ++ [(k, v)]) hn₂]
    simp

/-- `_merge_dicts` on key-disjoint dicts is concatenation. -/
theorem mergeDicts_eq_flatten (ds : List (List (String × Val)))
    (h : dictsHaveUniqueKeys ds = true) :
    mergeDicts ds = ds.flatten := by
  unfold mergeDicts
  have hlen : ((ds.map (fun d => d.map Prod.fst)).flatten).dedup.length
      = (ds.map List.length).sum := by
    unfold dictsHaveUniqueKeys at h
    exact of_decide_eq_true h
  have hflat : (ds.map (fun d => d.map Prod.fst)).flatten = ds.flatten.map Prod.fst := by
    rw [List.map_flatten]
  have hlen₂ : (ds.flatten.map Prod.fst).length = (ds.map List.length).sum := by
    rw [List.length_map, List.length_flatten]
  have hnodup : (ds.flatten.map Prod.fst).Nodup := by
    have hsub := List.dedup_sublist (ds.flatten.map Prod.fst)
    have hle : (ds.flatten.map Prod.fst).dedup.length = (ds.flatten.map Prod.fst).length := by
      rw [hlen₂, ← hflat]
      exact hlen
    have heq : (ds.flatten.map Prod.fst).dedup = ds.flatten.map Prod.fst :=
      List.Sublist.eq_of_length hsub hle
    rw [← heq]
    exact List.nodup_dedup _
  exact foldl_setKey_nodup ds.flatten [] (by simpa using hnodup)

theorem parseText_defOpts (s : String) : parseText defOpts s = Val.vstr s := by
  unfold parseText
  rw [if_neg (by simp [defOpts])]

theorem parseAttrs_defOpts (e : Element) : parseAttrs defOpts e = attrsAsMap e := by
  unfold parseAttrs attrsAsMap
  rw [if_neg (by simp [defOpts])]

theorem textPhase_write_sub (opts : Options) (e : Element)
    (ht : textTruthy e.text = true) (hs : pyStrip (e.text.getD "") ≠ "")
    (hor : e.children ≠ [] ∨ e.attrib ≠ []) :
    textPhase opts e
      = (Element.mk e.tag e.attrib (some (pyStrip (e.text.getD ""))) e.children,
         [], [(opts.textKey, parseText opts (pyStrip (e.text.getD "")))]) := by
  unfold textPhase process_elem_text
  dsimp only
  rw [if_pos ht, if_pos hs, if_pos (by simpa using hor)]
  rfl

theorem textPhase_write_direct (opts : Options) (e : Element)
    (ht : textTruthy e.text = true) (hs : pyStrip (e.text.getD "") ≠ "")
    (hch : e.children = []) (ha : e.attrib = []) :
    textPhase opts e
      = (Element.mk e.tag e.attrib (some (pyStrip (e.text.getD ""))) e.children,
         [(e.tag, parseText opts (pyStrip (e.text.getD "")))], []) := by
  unfold textPhase process_elem_text
  dsimp only
  rw [if_pos ht, if_pos hs, if_neg (by simp [hch, ha])]
  rfl

theorem truthyPrime_iff (opts : Options) (e : Element) :
    textTruthy ((textPhase opts e).1.text) = true ↔
      (textTruthy e.text = true ∧ pyStrip (e.text.getD "") ≠ "") := by
  rw [textPhase_fst]
  simp only [Element.text_mk]
  by_cases ht : textTruthy e.text = true
  · rw [if_pos ht]
    constructor
    · intro h
      exact ⟨ht, by simpa [textTruthy] using h⟩
    · intro h
      simpa [textTruthy] using h.2
  · rw [if_neg ht]
    simp [ht]

theorem preSubdic_case00 (opts : Options) (e : Element)
    (htx : textTruthy ((textPhase opts e).1.text) = false) (ha : e.attrib = []) :
    preSubdic opts e = [] := by
  unfold preSubdic attrsPhase
  rw [if_neg (by simp [textPhase_attrib, ha])]
  rw [textPhase_state opts e htx]

theorem preSubdic_case10 (opts : Options) (e : Element)
    (ht : textTruthy e.text = true) (hs : pyStrip (e.text.getD "") ≠ "")
    (hch : e.children ≠ []) (ha : e.attrib = []) :
    preSubdic opts e
      = [(opts.textKey, parseText opts (pyStrip (e.text.getD "")))] := by
  unfold preSubdic attrsPhase
  rw [textPhase_write_sub opts e ht hs (Or.inl hch)]
  simp only [Element.attrib_mk]
  rw [if_neg (by simp [ha])]

theorem preSubdic_case01 (e : Element)
    (htx : textTruthy ((textPhase defOpts e).1.text) = false) (ha : e.attrib ≠ []) :
    preSubdic defOpts e = [("@attrs", Val.vmap (attrsAsMap e))] := by
  unfold preSubdic attrsPhase
  rw [if_pos (by simpa [textPhase_attrib] using ha)]
  unfold process_elem_attrs
  rw [if_neg (by intro hc; simpa [defOpts] using hc.2.2)]
  rw [textPhase_state defOpts e htx, parseAttrs_textPhase, parseAttrs_defOpts]
  rfl

theorem preSubdic_case11 (e : Element)
    (ht : textTruthy e.text = true) (hs : pyStrip (e.text.getD "") ≠ "")
    (ha : e.attrib ≠ []) :
    preSubdic defOpts e
      = [("@text", Val.vstr (pyStrip (e.text.getD ""))),
         ("@attrs", Val.vmap (attrsAsMap e))] := by
  unfold preSubdic attrsPhase
  rw [textPhase_write_sub defOpts e ht hs (Or.inr ha)]
  simp only [Element.attrib_mk]
  rw [if_pos (by simpa using ha)]
  unfold process_elem_attrs
  rw [if_neg (by intro hc; simpa [defOpts] using hc.2.2)]
  rw [parseAttrs_defOpts]
  show ([], setKey [((defOpts).textKey, parseText defOpts (pyStrip (e.text.getD "")))]
      (defOpts).attrsKey (Val.vmap (attrsAsMap (Element.mk e.tag e.attrib
        (some (pyStrip (e.text.getD ""))) e.children)))).2
    = _
  rw [parseText_defOpts]
  show setKey [("@text", Val.vstr (pyStrip (e.text.getD "")))] "@attrs"
      (Val.vmap (attrsAsMap (Element.mk e.tag e.attrib
        (some (pyStrip (e.text.getD ""))) e.children))) = _
  rw [show attrsAsMap (Element.mk e.tag e.attrib
    (some (pyStrip (e.text.getD ""))) e.children) = attrsAsMap e from rfl]
  rfl

theorem preDic_defOpts (e : Element) (hor : e.children ≠ [] ∨ e.attrib ≠ []) :
    preDic defOpts e = [] := by
  have hd := textPhase_dic defOpts e hor
  unfold preDic attrsPhase
  by_cases ha : (textPhase defOpts e).1.attrib ≠ []
  · rw [if_pos ha]
    unfold process_elem_attrs
    rw [if_neg (by intro hc; simpa [defOpts] using hc.2.2)]
    exact hd
  · rw [if_neg ha]
    exact hd

/-- The value stored under the tag by `elem_to_container` at default options:
all branches of the per-element algorithm. -/
def vOf (e : Element) : Val :=
  if e.children ≠ [] then
    if dictsHaveUniqueKeys (preSubdic defOpts e :: cdicsOf defOpts e) then
      Val.vmap (mergeDicts (preSubdic defOpts e :: cdicsOf defOpts e))
    else if preSubdic defOpts e = [] then
      Val.vseq ((cdicsOf defOpts e).map Val.vmap)
    else
      Val.vmap (setKey (preSubdic defOpts e) "@children"
        (Val.vseq ((cdicsOf defOpts e).map Val.vmap)))
  else if textTruthy ((textPhase defOpts e).1.text) then
    if e.attrib = [] then Val.vstr (pyStrip (e.text.getD ""))
    else Val.vmap (preSubdic defOpts e)
  else if e.attrib = [] then Val.vnone
  else Val.vmap (preSubdic defOpts e)

theorem setKey_same_head {β : Type} (k : String) (v w : β) (rest : List (String × β)) :
    setKey ((k, v) :: rest) k w = (k, w) :: rest := by
  simp [setKey]

/-- Every produced container is a one-entry mapping keyed by the (raw) tag at
default options, holding `vOf`. -/
theorem toC_eq (e : Element) :
    (elem_to_container defOpts e).1 = [(e.tag, vOf e)] := by
  rw [elem_to_container_fst]
  rw [show tweakNs defOpts.nspaces e.tag = e.tag from rfl]
  unfold vOf
  by_cases hch : e.children = []
  · rw [if_neg (by simp [hch])]
    have hphase : phase3 defOpts e =
        (if ¬ textTruthy ((textPhase defOpts e).1.text) ∧ e.attrib = [] then
          (setKey (preDic defOpts e) e.tag Val.vnone, preSubdic defOpts e)
        else (preDic defOpts e, preSubdic defOpts e)) := by
      unfold phase3 preDic preSubdic attrsPhase
      rw [if_neg (by simp [hch])]
    by_cases htx : textTruthy ((textPhase defOpts e).1.text) = true
    · rw [if_pos htx]
      obtain ⟨ht, hs⟩ := (truthyPrime_iff defOpts e).mp htx
      by_cases ha : e.attrib = []
      · rw [if_pos ha]
        have hp : phase3 defOpts e
            = ([(e.tag, Val.vstr (pyStrip (e.text.getD "")))], []) := by
          rw [hphase, if_neg (by simp [htx])]
          unfold preDic preSubdic attrsPhase
          rw [if_neg (by simp [textPhase_attrib, ha])]
          rw [textPhase_write_direct defOpts e ht hs hch ha, parseText_defOpts]
        rw [hp]
        simp [setKey]
      · rw [if_neg ha]
        have hp : phase3 defOpts e = ([], preSubdic defOpts e) := by
          rw [hphase, if_neg (by simp [htx]), preDic_defOpts e (Or.inr ha)]
        rw [hp]
        simp
    · rw [if_neg htx]
      have htx₀ : textTruthy ((textPhase defOpts e).1.text) = false := by
        simpa using htx
      by_cases ha : e.attrib = []
      · rw [if_pos ha]
        have hpre : preDic defOpts e = [] := by
          unfold preDic attrsPhase
          rw [if_neg (by simp [textPhase_attrib, ha])]
          rw [textPhase_state defOpts e htx₀]
        have hp : phase3 defOpts e = ([(e.tag, Val.vnone)], []) := by
          rw [hphase, if_pos ⟨by simp [htx₀], ha⟩, hpre,
            preSubdic_case00 defOpts e htx₀ ha]
          rfl
        rw [hp]
        simp [setKey]
      · rw [if_neg ha]
        have hp : phase3 defOpts e = ([], preSubdic defOpts e) := by
          rw [hphase, if_neg (by simp [ha]), preDic_defOpts e (Or.inr ha)]
        rw [hp]
        simp
  · rw [if_pos hch]
    have h3 := phase3_children defOpts e hch
    rw [preDic_children defOpts e hch] at h3
    have hfirst : (if defOpts.mergeAttrs = true then
          ((textPhase defOpts e).1.attrib).map (fun kv => (kv.1, Val.vstr kv.2))
        else preSubdic defOpts e) = preSubdic defOpts e := by
      rw [if_neg (by simp [defOpts])]
    by_cases hu : dictsHaveUniqueKeys (preSubdic defOpts e :: cdicsOf defOpts e) = true
    · rw [if_pos hu]
      have hp : phase3 defOpts e
          = (setKey [] e.tag (Val.vmap
              (mergeDicts (preSubdic defOpts e :: cdicsOf defOpts e))),
             preSubdic defOpts e) := by
        rw [h3]
        unfold process_children_elems
        dsimp only
        rw [hfirst, if_pos hu, textPhase_tag]
      rw [hp]
      simp [setKey]
    · rw [if_neg hu]
      by_cases hsd : preSubdic defOpts e = []
      · rw [if_pos hsd]
        have hp : phase3 defOpts e
            = (setKey [] e.tag
                (Val.vseq ((cdicsOf defOpts e).map Val.vmap)),
               preSubdic defOpts e) := by
          rw [h3]
          unfold process_children_elems
          dsimp only
          rw [hfirst, if_neg (by simpa using hu), if_pos hsd, textPhase_tag]
        rw [hp]
        simp [setKey]
      · rw [if_neg hsd]
        have hp : phase3 defOpts e
            = ([], setKey (preSubdic defOpts e) "@children"
                (Val.vseq ((cdicsOf defOpts e).map Val.vmap))) := by
          rw [h3]
          unfold process_children_elems
          dsimp only
          rw [hfirst, if_neg (by simpa using hu), if_neg hsd]
          rfl
        rw [hp]
        simp

/-! ### Normalization: the element tree that dumping a converted container
rebuilds (text stripped, whitespace-only text dropped) -/

def normText : Option String → Option String
  | none => none
  | some s => if pyStrip s = "" then none else some (pyStrip s)

mutual

def normalizeElem : Element → Element
  | .mk tag attrib text children =>
    Element.mk tag attrib (normText text) (normalizeList children)

def normalizeList : List Element → List Element
  | [] => []
  | c :: cs => normalizeElem c :: normalizeList cs

end

theorem normalizeElem_parts (e : Element) :
    normalizeElem e
      = Element.mk e.tag e.attrib (normText e.text) (normalizeList e.children) := by
  cases e
  rfl

theorem normalizeList_nil_iff (cs : List Element) :
    normalizeList cs = [] ↔ cs = [] := by
  cases cs <;> simp [normalizeList]

theorem pyStrip_empty : pyStrip "" = "" := rfl

theorem normText_strip (t : Option String) :
    pyStrip ((normText t).getD "") = pyStrip (t.getD "") := by
  cases t with
  | none => rfl
  | some s =>
    by_cases hs : pyStrip s = ""
    · simp [normText, hs, pyStrip_empty]
    · simp [normText, hs, pyStrip_idem]

theorem textTruthy_normText_and (t : Option String) :
    (textTruthy (normText t) = true ∧ pyStrip ((normText t).getD "") ≠ "") ↔
      (textTruthy t = true ∧ pyStrip (t.getD "") ≠ "") := by
  cases t with
  | none => simp [normText]
  | some s =>
    by_cases hs : pyStrip s = ""
    · simp [normText, hs, textTruthy, pyStrip_empty]
    · have hsne : s ≠ "" := fun h => hs (by rw [h]; exact pyStrip_empty)
      simp [normText, hs, textTruthy, pyStrip_idem, hsne]

theorem truthyPrime_norm (e : Element) :
    textTruthy ((textPhase defOpts (normalizeElem e)).1.text)
      = textTruthy ((textPhase defOpts e).1.text) := by
  have hiff : (textTruthy ((textPhase defOpts (normalizeElem e)).1.text) = true) ↔
      (textTruthy ((textPhase defOpts e).1.text) = true) := by
    rw [truthyPrime_iff, truthyPrime_iff]
    rw [normalizeElem_parts]
    simp only [Element.text_mk]
    exact textTruthy_normText_and e.text
  by_cases hb : textTruthy ((textPhase defOpts e).1.text) = true
  · rw [hb, hiff.mpr hb]
  · have hb₁ : textTruthy ((textPhase defOpts e).1.text) = false := by simpa using hb
    have hb₂ : textTruthy ((textPhase defOpts (normalizeElem e)).1.text) = false := by
      have := fun h => hb (hiff.mp h)
      simpa using this
    rw [hb₁, hb₂]

theorem vOf_scalar (e : Element) (hch : e.children = [])
    (htx : textTruthy ((textPhase defOpts e).1.text) = true) (ha : e.attrib = []) :
    vOf e = Val.vstr (pyStrip (e.text.getD "")) := by
  unfold vOf
  rw [if_neg (by simp [hch]), if_pos htx, if_pos ha]

theorem vOf_submap_text (e : Element) (hch : e.children = [])
    (htx : textTruthy ((textPhase defOpts e).1.text) = true) (ha : e.attrib ≠ []) :
    vOf e = Val.vmap (preSubdic defOpts e) := by
  unfold vOf
  rw [if_neg (by simp [hch]), if_pos htx, if_neg ha]

theorem vOf_none (e : Element) (hch : e.children = [])
    (htx : textTruthy ((textPhase defOpts e).1.text) = false) (ha : e.attrib = []) :
    vOf e = Val.vnone := by
  unfold vOf
  rw [if_neg (by simp [hch]), if_neg (by simp [htx]), if_pos ha]

theorem vOf_submap_notext (e : Element) (hch : e.children = [])
    (htx : textTruthy ((textPhase defOpts e).1.text) = false) (ha : e.attrib ≠ []) :
    vOf e = Val.vmap (preSubdic defOpts e) := by
  unfold vOf
  rw [if_neg (by simp [hch]), if_neg (by simp [htx]), if_neg ha]

theorem vOf_merge (e : Element) (hch : e.children ≠ [])
    (hu : dictsHaveUniqueKeys (preSubdic defOpts e :: cdicsOf defOpts e) = true) :
    vOf e = Val.vmap (mergeDicts (preSubdic defOpts e :: cdicsOf defOpts e)) := by
  unfold vOf
  rw [if_pos hch, if_pos hu]

theorem vOf_seq (e : Element) (hch : e.children ≠ [])
    (hu : dictsHaveUniqueKeys (preSubdic defOpts e :: cdicsOf defOpts e) = false)
    (hsd : preSubdic defOpts e = []) :
    vOf e = Val.vseq ((cdicsOf defOpts e).map Val.vmap) := by
  unfold vOf
  rw [if_pos hch, if_neg (by simp [hu]), if_pos hsd]

theorem vOf_marker (e : Element) (hch : e.children ≠ [])
    (hu : dictsHaveUniqueKeys (preSubdic defOpts e :: cdicsOf defOpts e) = false)
    (hsd : preSubdic defOpts e ≠ []) :
    vOf e = Val.vmap (setKey (preSubdic defOpts e) "@children"
      (Val.vseq ((cdicsOf defOpts e).map Val.vmap))) := by
  unfold vOf
  rw [if_pos hch, if_neg (by simp [hu]), if_neg hsd]

theorem attrsAsMap_norm (e : Element) :
    attrsAsMap (normalizeElem e) = attrsAsMap e := by
  unfold attrsAsMap
  rw [normalizeElem_parts, Element.attrib_mk]

theorem preSubdic_norm (e : Element) (hne : e.children ≠ [] ∨ e.attrib ≠ []) :
    preSubdic defOpts (normalizeElem e) = preSubdic defOpts e := by
  have htru := truthyPrime_norm e
  by_cases htx : textTruthy ((textPhase defOpts e).1.text) = true
  · obtain ⟨ht, hs⟩ := (truthyPrime_iff defOpts e).mp htx
    have hnorm : textTruthy (normalizeElem e).text = true ∧
        pyStrip ((normalizeElem e).text.getD "") ≠ "" := by
      rw [normalizeElem_parts]
      simp only [Element.text_mk]
      exact (textTruthy_normText_and e.text).mpr ⟨ht, hs⟩
    by_cases ha : e.attrib = []
    · have hch : e.children ≠ [] := hne.resolve_right (by simp [ha])
      have hchn : (normalizeElem e).children ≠ [] := by
        rw [normalizeElem_parts]
        simpa [normalizeList_nil_iff] using hch
      rw [preSubdic_case10 defOpts e ht hs hch ha,
        preSubdic_case10 defOpts (normalizeElem e) hnorm.1 hnorm.2 hchn
          (by rw [normalizeElem_parts]; simpa using ha)]
      rw [normalizeElem_parts]
      simp only [Element.text_mk]
      rw [normText_strip]
    · have han : (normalizeElem e).attrib ≠ [] := by
        rw [normalizeElem_parts]; simpa using ha
      rw [preSubdic_case11 e ht hs ha,
        preSubdic_case11 (normalizeElem e) hnorm.1 hnorm.2 han]
      rw [attrsAsMap_norm]
      rw [normalizeElem_parts]
      simp only [Element.text_mk]
      rw [normText_strip]
  · have htx₀ : textTruthy ((textPhase defOpts e).1.text) = false := by simpa using htx
    have htxn : textTruthy ((textPhase defOpts (normalizeElem e)).1.text) = false := by
      rw [htru]; exact htx₀
    by_cases ha : e.attrib = []
    · rw [preSubdic_case00 defOpts e htx₀ ha,
        preSubdic_case00 defOpts (normalizeElem e) htxn
          (by rw [normalizeElem_parts]; simpa using ha)]
    · have han : (normalizeElem e).attrib ≠ [] := by
        rw [normalizeElem_parts]; simpa using ha
      rw [preSubdic_case01 e htx₀ ha, preSubdic_case01 (normalizeElem e) htxn han]
      rw [attrsAsMap_norm]

theorem vOf_norm_aux (e : Element)
    (hcd : cdicsOf defOpts (normalizeElem e) = cdicsOf defOpts e) :
    vOf (normalizeElem e) = vOf e := by
  have htru := truthyPrime_norm e
  have hattr : (normalizeElem e).attrib = e.attrib := by
    rw [normalizeElem_parts, Element.attrib_mk]
  by_cases hch : e.children = []
  · have hchn : (normalizeElem e).children = [] := by
      rw [normalizeElem_parts]
      simp [normalizeList_nil_iff, hch]
    by_cases htx : textTruthy ((textPhase defOpts e).1.text) = true
    · by_cases ha : e.attrib = []
      · rw [vOf_scalar (normalizeElem e) hchn (by rw [htru]; exact htx)
            (by rw [hattr]; exact ha),
          vOf_scalar e hch htx ha]
        rw [normalizeElem_parts]
        simp only [Element.text_mk]
        rw [normText_strip]
      · rw [vOf_submap_text (normalizeElem e) hchn (by rw [htru]; exact htx)
            (by rw [hattr]; exact ha),
          vOf_submap_text e hch htx ha,
          preSubdic_norm e (Or.inr ha)]
    · have htx₀ : textTruthy ((textPhase defOpts e).1.text) = false := by simpa using htx
      by_cases ha : e.attrib = []
      · rw [vOf_none (normalizeElem e) hchn (by rw [htru]; exact htx₀)
            (by rw [hattr]; exact ha),
          vOf_none e hch htx₀ ha]
      · rw [vOf_submap_notext (normalizeElem e) hchn (by rw [htru]; exact htx₀)
            (by rw [hattr]; exact ha),
          vOf_submap_notext e hch htx₀ ha,
          preSubdic_norm e (Or.inr ha)]
  · have hchn : (normalizeElem e).children ≠ [] := by
      rw [normalizeElem_parts]
      simpa [normalizeList_nil_iff] using hch
    have hps := preSubdic_norm e (Or.inl hch)
    by_cases hu : dictsHaveUniqueKeys (preSubdic defOpts e :: cdicsOf defOpts e) = true
    · rw [vOf_merge (normalizeElem e) hchn (by rw [hps, hcd]; exact hu),
        vOf_merge e hch hu, hps, hcd]
    · have hu₀ : dictsHaveUniqueKeys (preSubdic defOpts e :: cdicsOf defOpts e) = false := by
        simpa using hu
      by_cases hsd : preSubdic defOpts e = []
      · rw [vOf_seq (normalizeElem e) hchn (by rw [hps, hcd]; exact hu₀)
            (by rw [hps]; exact hsd),
          vOf_seq e hch hu₀ hsd, hcd]
      · rw [vOf_marker (normalizeElem e) hchn (by rw [hps, hcd]; exact hu₀)
            (by rw [hps]; exact hsd),
          vOf_marker e hch hu₀ hsd, hps, hcd]

mutual

theorem toC_norm : ∀ e : Element,
    (elem_to_container defOpts (normalizeElem e)).1 = (elem_to_container defOpts e).1
  | .mk t a tx cs => by
    have hcs := toCs_norm cs
    have hcd : cdicsOf defOpts (normalizeElem (Element.mk t a tx cs))
        = cdicsOf defOpts (Element.mk t a tx cs) := by
      unfold cdicsOf
      rw [normalizeElem_parts]
      simpa using hcs
    have htag : (normalizeElem (Element.mk t a tx cs)).tag
        = (Element.mk t a tx cs).tag := by
      rw [normalizeElem_parts, Element.tag_mk]
    rw [toC_eq, toC_eq, htag, vOf_norm_aux (Element.mk t a tx cs) hcd]

theorem toCs_norm : ∀ cs : List Element,
    (childrenToContainers defOpts (normalizeList cs)).map Prod.fst
      = (childrenToContainers defOpts cs).map Prod.fst
  | [] => rfl
  | c :: cs => by
    simp only [normalizeList, childrenToContainers, List.map_cons]
    rw [toC_norm c, toCs_norm cs]

end

/-! ### C5: error behaviour of the dump direction -/

/-- Claim C5, weakest reading: the transducer fails (with some error — the
distinct `InvalidContainerShape` does not even exist as an outcome in the
code) whenever the top-level container is not a Mapping. -/
def claimC5 : Prop :=
  ∀ v : Val, isDictLike v = false →
    ∃ err, containerToEtree defOpts v none = Except.error err

/-- C5 counterexample: a non-mapping top level (`"x"`) is a silent non-result
— `container_to_etree` returns Python `None` without raising anything. -/
theorem C5_counterexample : ¬ claimC5 := by
  intro h
  obtain ⟨err, herr⟩ := h (Val.vstr "x") (by decide)
  rw [show containerToEtree defOpts (Val.vstr "x") none
      = Except.ok (DumpRet.pyNone, none) from by decide] at herr
  exact Except.noConfusion herr

/-- C5 (amended): there is no distinct shape error.  A non-Mapping top-level
container returns a silent `None` (no tree, no exception); a top-level mapping
of marker keys only hits `None.set`/`None.text` (generic `AttributeError`); a
childrenKey value that is not a sequence raises generic errors (`TypeError`
for `None`, `AttributeError` when iterating yields non-dicts), as do sequence
items that are not mappings. -/
theorem C5_amended :
    (∀ v : Val, isDictLike v = false →
      containerToEtree defOpts v none = Except.ok (DumpRet.pyNone, none)) ∧
    containerToEtree defOpts (Val.vmap [("@text", Val.vstr "t")]) none
      = Except.error PyErr.attributeError ∧
    containerToEtree defOpts (Val.vmap [("a", Val.vmap [("@children", Val.vnone)])]) none
      = Except.error PyErr.typeError ∧
    containerToEtree defOpts
        (Val.vmap [("a", Val.vmap [("@children", Val.vseq [Val.vstr "x"])])]) none
      = Except.error PyErr.attributeError := by
  refine ⟨?_, by decide, by decide, by decide⟩
  intro v hv
  cases v with
  | vmap m => simp [isDictLike] at hv
  | vnone => rfl
  | vstr s => rfl
  | vseq l => rfl

/-- Witness for C5 (amended) at the non-mapping top level `"x"`. -/
theorem C5_amended_witness :
    containerToEtree defOpts (Val.vstr "x") none
      = Except.ok (DumpRet.pyNone, none) :=
  C5_amended.1 (Val.vstr "x") (by decide)

/-! ### C4: idempotence of the round trip for unambiguous documents -/

def isSeqVal : Val → Bool
  | .vseq _ => true
  | _ => false

mutual

/-- The formalization of "a document expressible without ambiguity" for the
default options: no tag collides with a marker key, attribute keys are unique
(as in any parsed document), the children of every element are themselves
unambiguous, and — the one genuinely lossy configuration — an element whose
children are stored under the children marker (collision with a nonempty
sub-mapping) has no child that itself takes the bare-sequence form, because
`_elem_from_descendants` pours such a child's sequence value through the
scalar branch of `container_to_etree` instead of splitting it. -/
def goodElem : Element → Bool
  | .mk tag attrib text children =>
    (!(tag == "@attrs" || tag == "@text" || tag == "@children")) &&
    decide ((attrib.map Prod.fst).Nodup) &&
    (if children ≠ [] ∧
        dictsHaveUniqueKeys
          (preSubdic defOpts (Element.mk tag attrib text children)
            :: cdicsOf defOpts (Element.mk tag attrib text children)) = false ∧
        preSubdic defOpts (Element.mk tag attrib text children) ≠ [] then
      (cdicsOf defOpts (Element.mk tag attrib text children)).all
        (fun d => d.all (fun kv => !isSeqVal kv.2))
    else true) &&
    goodElems children

def goodElems : List Element → Bool
  | [] => true
  | c :: cs => goodElem c && goodElems cs

end

theorem goodElem_tag (e : Element) (h : goodElem e = true) :
    e.tag ≠ "@attrs" ∧ e.tag ≠ "@text" ∧ e.tag ≠ "@children" := by
  obtain ⟨t, a, tx, cs⟩ := e
  unfold goodElem at h
  simp only [Bool.and_eq_true, Bool.not_eq_true', Bool.or_eq_false_iff,
    beq_eq_false_iff_ne] at h
  simp only [Element.tag_mk]
  exact ⟨h.1.1.1.1.1, h.1.1.1.1.2, h.1.1.1.2⟩

theorem goodElem_nodup (e : Element) (h : goodElem e = true) :
    (e.attrib.map Prod.fst).Nodup := by
  obtain ⟨t, a, tx, cs⟩ := e
  unfold goodElem at h
  simp only [Bool.and_eq_true, decide_eq_true_eq] at h
  exact h.1.1.2

theorem goodElem_marker_noseq (e : Element) (h : goodElem e = true)
    (hch : e.children ≠ [])
    (hu : dictsHaveUniqueKeys (preSubdic defOpts e :: cdicsOf defOpts e) = false)
    (hsd : preSubdic defOpts e ≠ []) :
    (cdicsOf defOpts e).all (fun d => d.all (fun kv => !isSeqVal kv.2)) = true := by
  obtain ⟨t, a, tx, cs⟩ := e
  unfold goodElem at h
  simp only [Bool.and_eq_true] at h
  have hcond := h.1.2
  rw [if_pos ⟨hch, hu, hsd⟩] at hcond
  exact hcond

theorem goodElem_children (e : Element) (h : goodElem e = true) :
    goodElems e.children = true := by
  obtain ⟨t, a, tx, cs⟩ := e
  unfold goodElem at h
  simp only [Bool.and_eq_true] at h
  exact h.2

theorem goodElems_mem {cs : List Element} {c : Element}
    (h : goodElems cs = true) (hm : c ∈ cs) : goodElem c = true := by
  induction cs with
  | nil => cases hm
  | cons x xs ih =>
    unfold goodElems at h
    simp only [Bool.and_eq_true] at h
    rcases List.mem_cons.mp hm with rfl | hx
    · exact h.1
    · exact ih h.2 hx

/-- What the dump of a tag's value pours into a fresh element named by the
tag: the per-shape characterization used in the round-trip induction. -/
def buildsTo (c : Element) : Prop :=
  match vOf c with
  | .vseq l =>
    pourItems defOpts l (Element.mk c.tag [] none []) = Except.ok (normalizeElem c)
  | .vmap m =>
    dumpEntries defOpts m (some (Element.mk c.tag [] none []))
      = Except.ok (some (normalizeElem c))
  | .vstr s => s ≠ "" ∧ setText (Element.mk c.tag [] none []) (some s) = normalizeElem c
  | .vnone => Element.mk c.tag [] none [] = normalizeElem c

theorem normText_truthyPrime (e : Element) :
    normText e.text
      = (if textTruthy ((textPhase defOpts e).1.text) = true then
          some (pyStrip (e.text.getD "")) else none) := by
  by_cases htx : textTruthy ((textPhase defOpts e).1.text) = true
  · obtain ⟨ht, hs⟩ := (truthyPrime_iff defOpts e).mp htx
    rw [if_pos htx]
    cases hmt : e.text with
    | none => rw [hmt] at ht; simp [textTruthy] at ht
    | some s =>
      rw [hmt] at hs
      simp only [Option.getD_some] at hs ⊢
      simp [normText, hs]
  · rw [if_neg htx]
    have hcon := fun hh => htx ((truthyPrime_iff defOpts e).mpr hh)
    cases hmt : e.text with
    | none => rfl
    | some s =>
      rw [hmt] at hcon
      simp only [Option.getD_some] at hcon
      by_cases hts : s = ""
      · subst hts
        simp [normText, pyStrip_empty]
      · have hstrip : pyStrip s = "" := by
          by_contra hns
          exact hcon ⟨by simp [textTruthy, hts], hns⟩
        simp [normText, hstrip]

theorem childrenToContainers_map (opts : Options) : ∀ cs : List Element,
    (childrenToContainers opts cs).map Prod.fst
      = cs.map (fun c => (elem_to_container opts c).1)
  | [] => rfl
  | c :: cs => by
    simp only [childrenToContainers, List.map_cons]
    rw [childrenToContainers_map opts cs]

theorem cdicsOf_eq (e : Element) :
    cdicsOf defOpts e = e.children.map (fun c => [(c.tag, vOf c)]) := by
  unfold cdicsOf
  rw [childrenToContainers_map]
  exact List.map_congr_left (fun c _ => toC_eq c)

theorem flatten_singletons {β : Type} (f : Element → β) : ∀ cs : List Element,
    (cs.map (fun c => [f c])).flatten = cs.map f
  | [] => rfl
  | c :: cs => by
    simp only [List.map_cons, List.flatten_cons, List.singleton_append]
    rw [flatten_singletons f cs]

theorem setAttrsList_attrs (opts : Options) : ∀ (l : List (String × String)) (pe : Element),
    setAttrsList opts (l.map (fun kv => (kv.1, Val.vstr kv.2))) pe
      = Except.ok (Element.mk pe.tag
          (l.foldl (fun acc kv => setKey acc kv.1 kv.2) pe.attrib) pe.text pe.children)
  | [], pe => by cases pe; rfl
  | (k, v) :: rest, pe => by
    simp only [List.map_cons, setAttrsList, List.foldl_cons]
    rw [setAttrsList_attrs opts rest (setAttr pe k v)]
    rfl

theorem dumpEntries_append (opts : Options) : ∀ (l₁ l₂ : List (String × Val)) (p : Option Element),
    dumpEntries opts (l₁ ++ l₂) p
      = (dumpEntries opts l₁ p).bind (fun q => dumpEntries opts l₂ q)
  | [], l₂, p => by
    simp only [List.nil_append]
    rfl
  | (k, v) :: rest, l₂, p => by
    show (dumpEntry opts k v p).bind (fun q => dumpEntries opts (rest ++ l₂) q)
        = ((dumpEntry opts k v p).bind (fun q => dumpEntries opts rest q)).bind
            (fun q => dumpEntries opts l₂ q)
    cases h : dumpEntry opts k v p with
    | error err => rfl
    | ok q =>
      show dumpEntries opts (rest ++ l₂) q
          = (dumpEntries opts rest q).bind (fun q => dumpEntries opts l₂ q)
      exact dumpEntries_append opts rest l₂ q

theorem dumpEntries_single (k : String) (v : Val) (p : Option Element) :
    dumpEntries defOpts [(k, v)] p = dumpEntry defOpts k v p := by
  show (dumpEntry defOpts k v p).bind (fun q => dumpEntries defOpts [] q)
      = dumpEntry defOpts k v p
  cases h : dumpEntry defOpts k v p <;> rfl

theorem dumpEntry_text_str (pe : Element) (s : String) :
    dumpEntry defOpts "@text" (Val.vstr s) (some pe)
      = Except.ok (some (setText pe (some s))) := rfl

theorem dumpEntry_attrs_cons (pe : Element) (kv : String × Val)
    (am : List (String × Val)) :
    dumpEntry defOpts "@attrs" (Val.vmap (kv :: am)) (some pe)
      = (setAttrsList defOpts (kv :: am) pe).bind (fun pe₁ => Except.ok (some pe₁)) := rfl

theorem dumpEntries_attrs (e : Element) (pe : Element)
    (hnd : (e.attrib.map Prod.fst).Nodup) (ha : e.attrib ≠ [])
    (hpe : pe.attrib = []) :
    dumpEntries defOpts [("@attrs", Val.vmap (attrsAsMap e))] (some pe)
      = Except.ok (some (Element.mk pe.tag e.attrib pe.text pe.children)) := by
  rw [dumpEntries_single]
  unfold attrsAsMap
  cases hattr : e.attrib with
  | nil => exact absurd hattr ha
  | cons kv rest =>
    rw [show ((kv :: rest).map (fun kv => (kv.1, Val.vstr kv.2)))
        = ((kv.1, Val.vstr kv.2) :: rest.map (fun kv => (kv.1, Val.vstr kv.2))) from rfl]
    rw [show ((kv.1, Val.vstr kv.2) :: rest.map (fun kv => (kv.1, Val.vstr kv.2)))
        = ((kv :: rest).map (fun kv => (kv.1, Val.vstr kv.2))) from rfl]
    rw [show ((kv :: rest).map (fun kv => (kv.1, Val.vstr kv.2)))
        = ((kv.1, Val.vstr kv.2) :: (rest.map (fun kv => (kv.1, Val.vstr kv.2)))) from rfl,
      dumpEntry_attrs_cons]
    rw [show ((kv.1, Val.vstr kv.2) :: (rest.map (fun kv => (kv.1, Val.vstr kv.2))))
        = ((kv :: rest).map (fun kv => (kv.1, Val.vstr kv.2))) from rfl]
    rw [setAttrsList_attrs defOpts (kv :: rest) pe]
    rw [hpe, foldl_setKey_nodup (kv :: rest) [] (by rw [← hattr]; simpa using hnd)]
    rfl

theorem dumpEntries_preSubdic (e : Element)
    (hnd : (e.attrib.map Prod.fst).Nodup)
    (hor : e.children ≠ [] ∨ e.attrib ≠ []) :
    dumpEntries defOpts (preSubdic defOpts e) (some (Element.mk e.tag [] none []))
      = Except.ok (some (Element.mk e.tag e.attrib (normText e.text) [])) := by
  by_cases htx : textTruthy ((textPhase defOpts e).1.text) = true
  · obtain ⟨ht, hs⟩ := (truthyPrime_iff defOpts e).mp htx
    have hnt : normText e.text = some (pyStrip (e.text.getD "")) := by
      rw [normText_truthyPrime, if_pos htx]
    rw [hnt]
    by_cases ha : e.attrib = []
    · have hch := hor.resolve_right (by simp [ha])
      rw [preSubdic_case10 defOpts e ht hs hch ha, parseText_defOpts, ha]
      rw [dumpEntries_single, show defOpts.textKey = "@text" from rfl, dumpEntry_text_str]
      rfl
    · rw [preSubdic_case11 e ht hs ha]
      rw [show ([("@text", Val.vstr (pyStrip (e.text.getD ""))),
            ("@attrs", Val.vmap (attrsAsMap e))])
          = [("@text", Val.vstr (pyStrip (e.text.getD "")))]
            ++ [("@attrs", Val.vmap (attrsAsMap e))] from rfl]
      rw [dumpEntries_append, dumpEntries_single, dumpEntry_text_str]
      rw [show ((Except.ok (some (setText (Element.mk e.tag [] none [])
            (some (pyStrip (e.text.getD ""))))) :
          Except PyErr (Option Element)).bind
          (fun q => dumpEntries defOpts [("@attrs", Val.vmap (attrsAsMap e))] q))
        = dumpEntries defOpts [("@attrs", Val.vmap (attrsAsMap e))]
            (some (Element.mk e.tag [] (some (pyStrip (e.text.getD ""))) [])) from rfl]
      rw [dumpEntries_attrs e
        (Element.mk e.tag [] (some (pyStrip (e.text.getD ""))) []) hnd ha rfl]
      rfl
  · have htx₀ : textTruthy ((textPhase defOpts e).1.text) = false := by simpa using htx
    have hnt : normText e.text = none := by
      rw [normText_truthyPrime, if_neg (by simp [htx₀])]
    rw [hnt]
    by_cases ha : e.attrib = []
    · rw [preSubdic_case00 defOpts e htx₀ ha, ha]
      rfl
    · rw [preSubdic_case01 e htx₀ ha]
      rw [dumpEntries_attrs e (Element.mk e.tag [] none []) hnd ha rfl]
      rfl

/-- `parent.append`-ing a whole list of children. -/
def appendChildren (b : Element) (l : List Element) : Element :=
  Element.mk b.tag b.attrib b.text (b.children ++ l)

theorem appendChildren_nil (b : Element) : appendChildren b [] = b := by
  cases b
  simp [appendChildren]

theorem appendChildren_addChild (b x : Element) (l : List Element) :
    appendChildren (addChild b x) l = appendChildren b (x :: l) := by
  cases b
  simp [appendChildren, addChild]

theorem ite_skip3 {α : Type} {c₁ c₂ c₃ : Prop} [Decidable c₁] [Decidable c₂]
    [Decidable c₃] {a b d e : α} (h₁ : ¬ c₁) (h₂ : ¬ c₂) (h₃ : ¬ c₃) :
    (if c₁ then a else if c₂ then b else if c₃ then d else e) = e := by
  rw [if_neg h₁, if_neg h₂, if_neg h₃]

/-- The element built by `_get_or_update_parent` for a non-marker key before it
is returned or appended: `elem = ET.Element(key)` poured with the value. -/
def buildVal (opts : Options) (key : String) (v : Val) : Except PyErr Element :=
  let base := Element.mk key [] none []
  match v with
  | .vseq l => pourItems opts l base
  | .vmap m => do
    let p ← dumpEntries opts m (some base)
    pure (p.getD base)
  | .vstr s => if s ≠ "" then pure (setText base (some s)) else pure base
  | .vnone => pure base

theorem dumpEntry_nonmarker (key : String) (v : Val) (p : Option Element)
    (h1 : ¬ key = "@attrs") (h2 : ¬ key = "@text") (h3 : ¬ key = "@children") :
    dumpEntry defOpts key v p
      = (buildVal defOpts key v).bind (fun built =>
          match p with
          | none => Except.ok (some built)
          | some pe => Except.ok (some (addChild pe built))) := by
  cases v with
  | vnone => exact ite_skip3 h1 h2 h3
  | vseq l => exact ite_skip3 h1 h2 h3
  | vstr s =>
    have step : dumpEntry defOpts key (Val.vstr s) p
        = (if s ≠ "" then
            (match p with
             | none =>
               Except.ok (some (setText (Element.mk key [] none []) (some s)))
             | some pe =>
               Except.ok (some (addChild pe
                 (setText (Element.mk key [] none []) (some s)))))
           else
            (match p with
             | none => Except.ok (some (Element.mk key [] none []))
             | some pe =>
               Except.ok (some (addChild pe (Element.mk key [] none []))))) :=
      ite_skip3 h1 h2 h3
    rw [step]
    rw [show buildVal defOpts key (Val.vstr s)
        = (if s ≠ "" then
            Except.ok (setText (Element.mk key [] none []) (some s))
          else Except.ok (Element.mk key [] none [])) from rfl]
    by_cases hs : s ≠ ""
    · rw [if_pos hs, if_pos hs]
      cases p <;> rfl
    · rw [if_neg hs, if_neg hs]
      cases p <;> rfl
  | vmap m =>
    have step : dumpEntry defOpts key (Val.vmap m) p
        = (dumpEntries defOpts m (some (Element.mk key [] none []))).bind
            (fun q => match p with
              | none => Except.ok (some (q.getD (Element.mk key [] none [])))
              | some pe =>
                Except.ok (some (addChild pe
                  (q.getD (Element.mk key [] none []))))) :=
      ite_skip3 h1 h2 h3
    rw [step]
    rw [show buildVal defOpts key (Val.vmap m)
        = (dumpEntries defOpts m (some (Element.mk key [] none []))).bind
            (fun q => Except.ok (q.getD (Element.mk key [] none []))) from rfl]
    cases hD : dumpEntries defOpts m (some (Element.mk key [] none [])) <;>
      cases p <;> rfl

theorem buildVal_builds (c : Element) (hb : buildsTo c) :
    buildVal defOpts c.tag (vOf c) = Except.ok (normalizeElem c) := by
  unfold buildsTo at hb
  cases hv : vOf c with
  | vseq l =>
    rw [hv] at hb
    exact hb
  | vmap m =>
    rw [hv] at hb
    have hb' : dumpEntries defOpts m (some (Element.mk c.tag [] none []))
        = Except.ok (some (normalizeElem c)) := hb
    show (dumpEntries defOpts m (some (Element.mk c.tag [] none []))).bind
        (fun p => Except.ok (p.getD (Element.mk c.tag [] none [])))
      = Except.ok (normalizeElem c)
    rw [hb']
    rfl
  | vstr s =>
    rw [hv] at hb
    have hb' : s ≠ "" ∧ setText (Element.mk c.tag [] none []) (some s)
        = normalizeElem c := hb
    show (if s ≠ "" then
        Except.ok (setText (Element.mk c.tag [] none []) (some s))
      else Except.ok (Element.mk c.tag [] none [])) = Except.ok (normalizeElem c)
    rw [if_pos hb'.1, hb'.2]
  | vnone =>
    rw [hv] at hb
    have hb' : Element.mk c.tag [] none [] = normalizeElem c := hb
    show Except.ok (Element.mk c.tag [] none []) = Except.ok (normalizeElem c)
    rw [hb']

theorem dumpEntry_builds_some (c pe : Element)
    (h1 : ¬ c.tag = "@attrs") (h2 : ¬ c.tag = "@text") (h3 : ¬ c.tag = "@children")
    (hb : buildsTo c) :
    dumpEntry defOpts c.tag (vOf c) (some pe)
      = Except.ok (some (addChild pe (normalizeElem c))) := by
  rw [dumpEntry_nonmarker c.tag (vOf c) (some pe) h1 h2 h3, buildVal_builds c hb]
  rfl

theorem dumpEntry_builds_none (c : Element)
    (h1 : ¬ c.tag = "@attrs") (h2 : ¬ c.tag = "@text") (h3 : ¬ c.tag = "@children")
    (hb : buildsTo c) :
    dumpEntry defOpts c.tag (vOf c) none
      = Except.ok (some (normalizeElem c)) := by
  rw [dumpEntry_nonmarker c.tag (vOf c) none h1 h2 h3, buildVal_builds c hb]
  rfl

theorem appendChildEntries_one (c b : Element) (hb : buildsTo c)
    (hns : isSeqVal (vOf c) = false) :
    appendChildEntries defOpts [(c.tag, vOf c)] (some b)
      = Except.ok (some (addChild b (normalizeElem c))) := by
  unfold buildsTo at hb
  cases hv : vOf c with
  | vseq l =>
    rw [hv] at hns
    simp [isSeqVal] at hns
  | vmap m =>
    rw [hv] at hb
    have hb' : dumpEntries defOpts m (some (Element.mk c.tag [] none []))
        = Except.ok (some (normalizeElem c)) := hb
    have step : appendChildEntries defOpts [(c.tag, Val.vmap m)] (some b)
        = (dumpEntries defOpts m (some (Element.mk c.tag [] none []))).bind
            (fun p => Except.ok (some (addChild b
              (p.getD (Element.mk c.tag [] none []))))) := rfl
    rw [step, hb']
    rfl
  | vstr s =>
    rw [hv] at hb
    have hb' : s ≠ "" ∧ setText (Element.mk c.tag [] none []) (some s)
        = normalizeElem c := hb
    have step : appendChildEntries defOpts [(c.tag, Val.vstr s)] (some b)
        = (if s ≠ "" then Except.ok (some (addChild b
              (setText (Element.mk c.tag [] none []) (some s))))
           else Except.ok (some (addChild b (Element.mk c.tag [] none [])))) := rfl
    rw [step, if_pos hb'.1, hb'.2]
  | vnone =>
    rw [hv] at hb
    have hb' : Element.mk c.tag [] none [] = normalizeElem c := hb
    have step : appendChildEntries defOpts [(c.tag, Val.vnone)] (some b)
        = Except.ok (some (addChild b (Element.mk c.tag [] none []))) := rfl
    rw [step, hb']

theorem dumpEntries_childList : ∀ (cs : List Element) (b : Element),
    (∀ c ∈ cs, (¬ c.tag = "@attrs" ∧ ¬ c.tag = "@text" ∧ ¬ c.tag = "@children")
      ∧ buildsTo c) →
    dumpEntries defOpts (cs.map (fun c => (c.tag, vOf c))) (some b)
      = Except.ok (some (appendChildren b (normalizeList cs)))
  | [], b, _ => by
    rw [show normalizeList [] = [] from rfl, appendChildren_nil]
    rfl
  | c :: cs, b, h => by
    have hc := h c (List.mem_cons_self c cs)
    show (dumpEntry defOpts c.tag (vOf c) (some b)).bind
        (fun q => dumpEntries defOpts (cs.map (fun c => (c.tag, vOf c))) q)
      = Except.ok (some (appendChildren b (normalizeList (c :: cs))))
    rw [dumpEntry_builds_some c b hc.1.1 hc.1.2.1 hc.1.2.2 hc.2]
    show dumpEntries defOpts (cs.map (fun c => (c.tag, vOf c)))
        (some (addChild b (normalizeElem c)))
      = Except.ok (some (appendChildren b (normalizeList (c :: cs))))
    rw [dumpEntries_childList cs (addChild b (normalizeElem c))
      (fun c' hc' => h c' (List.mem_cons_of_mem c hc'))]
    rw [appendChildren_addChild]
    rfl

theorem pourItems_childList : ∀ (cs : List Element) (b : Element),
    (∀ c ∈ cs, (¬ c.tag = "@attrs" ∧ ¬ c.tag = "@text" ∧ ¬ c.tag = "@children")
      ∧ buildsTo c) →
    pourItems defOpts (cs.map (fun c => Val.vmap [(c.tag, vOf c)])) b
      = Except.ok (appendChildren b (normalizeList cs))
  | [], b, _ => by
    rw [show normalizeList [] = [] from rfl, appendChildren_nil]
    rfl
  | c :: cs, b, h => by
    have hc := h c (List.mem_cons_self c cs)
    show (dumpEntries defOpts [(c.tag, vOf c)] (some b)).bind
        (fun p => pourItems defOpts (cs.map (fun c => Val.vmap [(c.tag, vOf c)]))
          (p.getD b))
      = Except.ok (appendChildren b (normalizeList (c :: cs)))
    rw [dumpEntries_single, dumpEntry_builds_some c b hc.1.1 hc.1.2.1 hc.1.2.2 hc.2]
    show pourItems defOpts (cs.map (fun c => Val.vmap [(c.tag, vOf c)]))
        (addChild b (normalizeElem c))
      = Except.ok (appendChildren b (normalizeList (c :: cs)))
    rw [pourItems_childList cs (addChild b (normalizeElem c))
      (fun c' hc' => h c' (List.mem_cons_of_mem c hc'))]
    rw [appendChildren_addChild]
    rfl

theorem descendantsAppend_childList : ∀ (cs : List Element) (b : Element),
    (∀ c ∈ cs, buildsTo c ∧ isSeqVal (vOf c) = false) →
    descendantsAppend defOpts (cs.map (fun c => Val.vmap [(c.tag, vOf c)])) (some b)
      = Except.ok (some (appendChildren b (normalizeList cs)))
  | [], b, _ => by
    rw [show normalizeList [] = [] from rfl, appendChildren_nil]
    rfl
  | c :: cs, b, h => by
    have hc := h c (List.mem_cons_self c cs)
    show (appendChildEntries defOpts [(c.tag, vOf c)] (some b)).bind
        (fun p => descendantsAppend defOpts
          (cs.map (fun c => Val.vmap [(c.tag, vOf c)])) p)
      = Except.ok (some (appendChildren b (normalizeList (c :: cs))))
    rw [appendChildEntries_one c b hc.1 hc.2]
    show descendantsAppend defOpts (cs.map (fun c => Val.vmap [(c.tag, vOf c)]))
        (some (addChild b (normalizeElem c)))
      = Except.ok (some (appendChildren b (normalizeList (c :: cs))))
    rw [descendantsAppend_childList cs (addChild b (normalizeElem c))
      (fun c' hc' => h c' (List.mem_cons_of_mem c hc'))]
    rw [appendChildren_addChild]
    rfl

theorem preSubdic_no_children_key (e : Element) :
    ∀ kv ∈ preSubdic defOpts e, kv.1 ≠ "@children" := by
  intro kv hkv
  by_cases htx : textTruthy ((textPhase defOpts e).1.text) = true
  · obtain ⟨ht, hs⟩ := (truthyPrime_iff defOpts e).mp htx
    by_cases ha : e.attrib = []
    · by_cases hch : e.children = []
      · have hnil : preSubdic defOpts e = [] := by
          unfold preSubdic attrsPhase
          rw [textPhase_write_direct defOpts e ht hs hch ha]
          simp only [Element.attrib_mk]
          rw [if_neg (by simp [ha])]
        rw [hnil] at hkv
        cases hkv
      · rw [preSubdic_case10 defOpts e ht hs hch ha] at hkv
        have := List.mem_singleton.mp hkv
        subst this
        simp [defOpts]
    · rw [preSubdic_case11 e ht hs ha] at hkv
      rcases List.mem_cons.mp hkv with heq | hkv₂
      · subst heq
        simp
      · have := List.mem_singleton.mp hkv₂
        subst this
        simp
  · have htx₀ : textTruthy ((textPhase defOpts e).1.text) = false := by
      simpa using htx
    by_cases ha : e.attrib = []
    · rw [preSubdic_case00 defOpts e htx₀ ha] at hkv
      cases hkv
    · rw [preSubdic_case01 e htx₀ ha] at hkv
      have := List.mem_singleton.mp hkv
      subst this
      simp

theorem preSubdic_nil_inv (e : Element) (hch : e.children ≠ [])
    (hsd : preSubdic defOpts e = []) :
    textTruthy ((textPhase defOpts e).1.text) = false ∧ e.attrib = [] := by
  by_cases htx : textTruthy ((textPhase defOpts e).1.text) = true
  · obtain ⟨ht, hs⟩ := (truthyPrime_iff defOpts e).mp htx
    by_cases ha : e.attrib = []
    · rw [preSubdic_case10 defOpts e ht hs hch ha] at hsd
      cases hsd
    · rw [preSubdic_case11 e ht hs ha] at hsd
      cases hsd
  · have htx₀ : textTruthy ((textPhase defOpts e).1.text) = false := by
      simpa using htx
    by_cases ha : e.attrib = []
    · exact ⟨htx₀, ha⟩
    · rw [preSubdic_case01 e htx₀ ha] at hsd
      cases hsd

theorem goodElem_noseq_children (e : Element) (hg : goodElem e = true)
    (hch : e.children ≠ [])
    (hu : dictsHaveUniqueKeys (preSubdic defOpts e :: cdicsOf defOpts e) = false)
    (hsd : preSubdic defOpts e ≠ []) :
    ∀ c ∈ e.children, isSeqVal (vOf c) = false := by
  have hall := goodElem_marker_noseq e hg hch hu hsd
  rw [cdicsOf_eq] at hall
  intro c hc
  have hmem : [(c.tag, vOf c)] ∈ e.children.map (fun c => [(c.tag, vOf c)]) :=
    List.mem_map_of_mem _ hc
  have hd := List.all_eq_true.mp hall _ hmem
  have hkv := List.all_eq_true.mp hd (c.tag, vOf c) (List.mem_singleton.mpr rfl)
  simpa using hkv

theorem sizeOf_child_lt (e c : Element) (hc : c ∈ e.children) :
    sizeOf c < sizeOf e := by
  obtain ⟨t, a, tx, cs⟩ := e
  simp only [Element.children_mk] at hc
  have h1 : sizeOf c < sizeOf cs := List.sizeOf_lt_of_mem hc
  simp only [Element.mk.sizeOf_spec]
  omega

theorem good_buildsTo_aux : ∀ (n : Nat) (e : Element),
    sizeOf e ≤ n → goodElem e = true → buildsTo e := by
  intro n
  induction n with
  | zero =>
    intro e hle hg
    exfalso
    obtain ⟨t, a, tx, cs⟩ := e
    simp only [Element.mk.sizeOf_spec] at hle
    omega
  | succ n ih =>
    intro e hle hg
    have hIH : ∀ c ∈ e.children, buildsTo c := by
      intro c hc
      exact ih c (by have := sizeOf_child_lt e c hc; omega)
        (goodElems_mem (goodElem_children e hg) hc)
    have hprops : ∀ c ∈ e.children,
        (¬ c.tag = "@attrs" ∧ ¬ c.tag = "@text" ∧ ¬ c.tag = "@children")
          ∧ buildsTo c := by
      intro c hc
      exact ⟨goodElem_tag c (goodElems_mem (goodElem_children e hg) hc), hIH c hc⟩
    have hnd := goodElem_nodup e hg
    by_cases hch : e.children = []
    · by_cases htx : textTruthy ((textPhase defOpts e).1.text) = true
      · obtain ⟨ht, hs⟩ := (truthyPrime_iff defOpts e).mp htx
        by_cases ha : e.attrib = []
        · unfold buildsTo
          rw [vOf_scalar e hch htx ha]
          refine ⟨hs, ?_⟩
          rw [normalizeElem_parts, hch, ha]
          rw [show normalizeList [] = [] from rfl]
          rw [normText_truthyPrime e, if_pos htx]
          rfl
        · unfold buildsTo
          rw [vOf_submap_text e hch htx ha]
          show dumpEntries defOpts (preSubdic defOpts e)
              (some (Element.mk e.tag [] none []))
            = Except.ok (some (normalizeElem e))
          rw [dumpEntries_preSubdic e hnd (Or.inr ha)]
          rw [normalizeElem_parts, hch]
          rw [show normalizeList [] = [] from rfl]
      · have htx₀ : textTruthy ((textPhase defOpts e).1.text) = false := by
          simpa using htx
        by_cases ha : e.attrib = []
        · unfold buildsTo
          rw [vOf_none e hch htx₀ ha]
          rw [normalizeElem_parts, hch, ha]
          rw [show normalizeList [] = [] from rfl]
          rw [normText_truthyPrime e, if_neg (by simp [htx₀])]
        · unfold buildsTo
          rw [vOf_submap_notext e hch htx₀ ha]
          show dumpEntries defOpts (preSubdic defOpts e)
              (some (Element.mk e.tag [] none []))
            = Except.ok (some (normalizeElem e))
          rw [dumpEntries_preSubdic e hnd (Or.inr ha)]
          rw [normalizeElem_parts, hch]
          rw [show normalizeList [] = [] from rfl]
    · by_cases hu : dictsHaveUniqueKeys
          (preSubdic defOpts e :: cdicsOf defOpts e) = true
      · unfold buildsTo
        rw [vOf_merge e hch hu]
        rw [mergeDicts_eq_flatten _ hu]
        rw [show (preSubdic defOpts e :: cdicsOf defOpts e).flatten
            = preSubdic defOpts e ++ (cdicsOf defOpts e).flatten from rfl]
        rw [cdicsOf_eq, flatten_singletons (fun c => (c.tag, vOf c)) e.children]
        show dumpEntries defOpts (preSubdic defOpts e
            ++ e.children.map (fun c => (c.tag, vOf c)))
            (some (Element.mk e.tag [] none []))
          = Except.ok (some (normalizeElem e))
        rw [dumpEntries_append]
        rw [dumpEntries_preSubdic e hnd (Or.inl hch)]
        show dumpEntries defOpts (e.children.map (fun c => (c.tag, vOf c)))
            (some (Element.mk e.tag e.attrib (normText e.text) []))
          = Except.ok (some (normalizeElem e))
        rw [dumpEntries_childList e.children _ hprops]
        rw [normalizeElem_parts]
        rfl
      · have hu₀ : dictsHaveUniqueKeys
            (preSubdic defOpts e :: cdicsOf defOpts e) = false := by
          simpa using hu
        by_cases hsd : preSubdic defOpts e = []
        · unfold buildsTo
          rw [vOf_seq e hch hu₀ hsd]
          rw [cdicsOf_eq]
          rw [show (e.children.map (fun c => [(c.tag, vOf c)])).map Val.vmap
              = e.children.map (fun c => Val.vmap [(c.tag, vOf c)]) from by
            rw [List.map_map]
            rfl]
          show pourItems defOpts
              (e.children.map (fun c => Val.vmap [(c.tag, vOf c)]))
              (Element.mk e.tag [] none [])
            = Except.ok (normalizeElem e)
          rw [pourItems_childList e.children _ hprops]
          obtain ⟨htx₀, ha⟩ := preSubdic_nil_inv e hch hsd
          rw [normalizeElem_parts]
          rw [normText_truthyPrime e, if_neg (by simp [htx₀]), ha]
          rfl
        · unfold buildsTo
          rw [vOf_marker e hch hu₀ hsd]
          rw [setKey_fresh (preSubdic defOpts e) "@children" _
            (preSubdic_no_children_key e)]
          show dumpEntries defOpts (preSubdic defOpts e
              ++ [("@children", Val.vseq ((cdicsOf defOpts e).map Val.vmap))])
              (some (Element.mk e.tag [] none []))
            = Except.ok (some (normalizeElem e))
          rw [dumpEntries_append]
          rw [dumpEntries_preSubdic e hnd (Or.inl hch)]
          show dumpEntries defOpts
              [("@children", Val.vseq ((cdicsOf defOpts e).map Val.vmap))]
              (some (Element.mk e.tag e.attrib (normText e.text) []))
            = Except.ok (some (normalizeElem e))
          rw [dumpEntries_single]
          rw [show dumpEntry defOpts "@children"
              (Val.vseq ((cdicsOf defOpts e).map Val.vmap))
              (some (Element.mk e.tag e.attrib (normText e.text) []))
            = descendantsAppend defOpts ((cdicsOf defOpts e).map Val.vmap)
                (some (Element.mk e.tag e.attrib (normText e.text) [])) from rfl]
          rw [cdicsOf_eq]
          rw [show (e.children.map (fun c => [(c.tag, vOf c)])).map Val.vmap
              = e.children.map (fun c => Val.vmap [(c.tag, vOf c)]) from by
            rw [List.map_map]
            rfl]
          rw [descendantsAppend_childList e.children _
            (fun c hc => ⟨hIH c hc, goodElem_noseq_children e hg hch hu₀ hsd c hc⟩)]
          rw [normalizeElem_parts]
          rfl

theorem good_buildsTo (e : Element) (hg : goodElem e = true) : buildsTo e :=
  good_buildsTo_aux (sizeOf e) e (Nat.le_refl _) hg

theorem containerToEtree_good (e : Element) (hg : goodElem e = true) :
    containerToEtree defOpts (Val.vmap (elem_to_container defOpts e).1) none
      = Except.ok (DumpRet.tree (some (normalizeElem e)),
          some (normalizeElem e)) := by
  rw [toC_eq]
  show (dumpEntries defOpts [(e.tag, vOf e)] none).bind
      (fun p => Except.ok (DumpRet.tree p, p))
    = Except.ok (DumpRet.tree (some (normalizeElem e)), some (normalizeElem e))
  rw [dumpEntries_single]
  have htag := goodElem_tag e hg
  rw [dumpEntry_builds_none e htag.1 htag.2.1 htag.2.2 (good_buildsTo e hg)]
  rfl

/-- C4: for a document already expressible without ambiguity (`goodElem`: no
tag collides with a marker key, attribute keys are unique, and no
marker-branch child dict holds a sequence value), a second round trip is a
no-op.  Dumping the converted container rebuilds the normalized element tree
(the first conversion's in-place text strip applied), and converting that
tree again yields a container equal to the first conversion. -/
theorem C4_idempotent (e : Element) (hg : goodElem e = true) :
    containerToEtree defOpts (Val.vmap (elem_to_container defOpts e).1) none
      = Except.ok (DumpRet.tree (some (normalizeElem e)),
          some (normalizeElem e))
    ∧ (elem_to_container defOpts (normalizeElem e)).1
      = (elem_to_container defOpts e).1 :=
  ⟨containerToEtree_good e hg, toC_norm e⟩

theorem C4_idempotent_witness :
    goodElem (Element.mk "a" [("x", "1")] (some " t ")
        [Element.mk "b" [] (some "2") [], Element.mk "b" [] none []]) = true
    ∧ (containerToEtree defOpts (Val.vmap (elem_to_container defOpts
          (Element.mk "a" [("x", "1")] (some " t ")
            [Element.mk "b" [] (some "2") [], Element.mk "b" [] none []])).1)
          none
        = Except.ok (DumpRet.tree (some (normalizeElem
            (Element.mk "a" [("x", "1")] (some " t ")
              [Element.mk "b" [] (some "2") [], Element.mk "b" [] none []]))),
            some (normalizeElem (Element.mk "a" [("x", "1")] (some " t ")
              [Element.mk "b" [] (some "2") [], Element.mk "b" [] none []])))
      ∧ (elem_to_container defOpts (normalizeElem
            (Element.mk "a" [("x", "1")] (some " t ")
              [Element.mk "b" [] (some "2") [], Element.mk "b" [] none []]))).1
        = (elem_to_container defOpts (Element.mk "a" [("x", "1")] (some " t ")
            [Element.mk "b" [] (some "2") [], Element.mk "b" [] none []])).1) :=
  ⟨by decide, C4_idempotent (Element.mk "a" [("x", "1")] (some " t ")
    [Element.mk "b" [] (some "2") [], Element.mk "b" [] none []]) (by decide)⟩
